import Mathlib

/-!
Verification of the maze-generation engine of the `pmg` repository.

The definitions below are a shallow embedding of `src/maze.ts` (the data
model `Cell`/`Maze`, grid construction, neighbor lookup, wall removal and
the iterative depth-first backtracking loop of `generateMaze`) and of
`getMazeDimensions` from `src/renderer.ts`.

Modelling conventions:
* JavaScript objects mutated in place become explicit state passing; a cell
  is addressed by its grid position (the `row`/`col` fields of a cell always
  agree with its position, which is proved as an invariant).
* The random source `Math.random()` is modelled by a stream `rng : Nat → Nat`
  together with a step counter; the selected index
  `Math.floor(Math.random() * neighbors.length)`, which ranges over all of
  `[0, neighbors.length)`, is modelled as `rng step % neighbors.length`,
  which ranges over the same set as `rng` varies.
* The unbounded `while` loop is modelled by a fuel-indexed recursion; we
  prove that the supplied fuel always suffices (the loop terminates) and
  that the result is stable under adding more fuel.
* The `throw new Error("Invalid grid size")` is modelled with `Except`.
* JavaScript `number` inputs of `generateMaze` are modelled as `Int` (the
  claims quantify over integer inputs).
-/

/-- Wall flags of one cell, as in the `walls` object literal of `Cell`. -/
structure Walls where
  top : Bool
  right : Bool
  bottom : Bool
  left : Bool
deriving DecidableEq

/-- One grid cell, as in `interface Cell` of `src/maze.ts`. -/
structure Cell where
  row : Nat
  col : Nat
  walls : Walls
  visited : Bool
deriving DecidableEq

/-- The grid is a row-major list of rows of cells (`Cell[][]`). -/
abbrev Grid := List (List Cell)

/-- A grid position `(row, col)`. -/
abbrev Pos := Nat × Nat

/-- The generation result, as in `interface Maze` of `src/maze.ts`.
The `end` field of the source is called `endPos` (`end` is a keyword). -/
structure Maze where
  rows : Nat
  cols : Nat
  cells : Grid
  start : Pos
  endPos : Pos
deriving DecidableEq

/-- Read the cell at `(r, c)`, i.e. the JavaScript `grid[r]?.[c]`. -/
def getCell (g : Grid) (r c : Nat) : Option Cell :=
  (g.get? r).bind fun row => row.get? c

/-- Replace the element at an index by applying `f` (out of range: no-op).
This models an in-place mutation of one array slot. -/
def modifyAt (f : α → α) : Nat → List α → List α
  | _, [] => []
  | 0, a :: as => f a :: as
  | n + 1, a :: as => a :: modifyAt f n as

/-- Apply `f` to the cell at `(r, c)` of the grid, modelling a mutation of
the cell object stored there. -/
def modifyCell (g : Grid) (r c : Nat) (f : Cell → Cell) : Grid :=
  modifyAt (modifyAt f c) r g

/-- The grid of `createGrid` in `src/maze.ts`: `rows` rows of `cols` cells,
each carrying its coordinates, all four walls up and `visited: false`. -/
def createGrid (rows cols : Nat) : Grid :=
  (List.range rows).map fun r =>
    (List.range cols).map fun c =>
      { row := r, col := c
        walls := { top := true, right := true, bottom := true, left := true }
        visited := false }

/-- The check-and-collect step of `getUnvisitedNeighbors` for one candidate
position: `grid[r]?.[c]` followed by `if (x && !x.visited) neighbors.push(x)`. -/
def neighborAt (g : Grid) (r c : Nat) : List Cell :=
  match getCell g r c with
  | some x => if x.visited then [] else [x]
  | none => []

/-- `getUnvisitedNeighbors` of `src/maze.ts`: the unvisited cells among the
four cardinal neighbors, collected in source order top, bottom, left, right. -/
def getUnvisitedNeighbors (g : Grid) (cell : Cell) : List Cell :=
  let rows := g.length
  let cols := ((g.get? 0).map List.length).getD 0
  (if cell.row > 0 then neighborAt g (cell.row - 1) cell.col else [])
    ++ (if cell.row < rows - 1 then neighborAt g (cell.row + 1) cell.col else [])
    ++ (if cell.col > 0 then neighborAt g cell.row (cell.col - 1) else [])
    ++ (if cell.col < cols - 1 then neighborAt g cell.row (cell.col + 1) else [])

/-- `removeWallBetween` of `src/maze.ts`: clear the matching wall flag on
both cells, selecting the direction by `dx = next.col - current.col` and
`dy = next.row - current.row` (number subtraction, hence `Int`). -/
def removeWallBetween (g : Grid) (current next : Cell) : Grid :=
  if (next.col : Int) - (current.col : Int) = 1 then
    modifyCell
      (modifyCell g current.row current.col fun cell =>
        { cell with walls := { cell.walls with right := false } })
      next.row next.col fun cell =>
        { cell with walls := { cell.walls with left := false } }
  else if (next.col : Int) - (current.col : Int) = -1 then
    modifyCell
      (modifyCell g current.row current.col fun cell =>
        { cell with walls := { cell.walls with left := false } })
      next.row next.col fun cell =>
        { cell with walls := { cell.walls with right := false } }
  else if (next.row : Int) - (current.row : Int) = 1 then
    modifyCell
      (modifyCell g current.row current.col fun cell =>
        { cell with walls := { cell.walls with bottom := false } })
      next.row next.col fun cell =>
        { cell with walls := { cell.walls with top := false } }
  else if (next.row : Int) - (current.row : Int) = -1 then
    modifyCell
      (modifyCell g current.row current.col fun cell =>
        { cell with walls := { cell.walls with top := false } })
      next.row next.col fun cell =>
        { cell with walls := { cell.walls with bottom := false } }
  else g

/-- Mark the cell at `(r, c)` visited (`cell.visited = true`). -/
def setVisitedAt (g : Grid) (r c : Nat) : Grid :=
  modifyCell g r c fun cell => { cell with visited := true }

/-- The mutable state of the carving loop of `generateMaze`: the grid and
the explicit stack (head = top of stack).  The remaining fields are ghost
instrumentation: `pushes` records every position ever pushed (most recent
first), `edges` records every carved passage as a `(current, next)` pair
(most recent first) and `step` counts consumed random numbers. -/
structure GenState where
  grid : Grid
  stack : List Pos
  pushes : List Pos
  edges : List (Pos × Pos)
  step : Nat
deriving DecidableEq

/-- The `while (stack.length > 0)` carving loop of `generateMaze`,
fuel-indexed.  Each iteration peeks the top of the stack, computes the
unvisited neighbors, and either backtracks (pop) or carves into a randomly
chosen neighbor (remove wall, mark visited, push). -/
def carve (rng : Nat → Nat) : Nat → GenState → GenState
  | 0, s => s
  | fuel + 1, s =>
    match s.stack with
    | [] => s
    | p :: rest =>
      match getCell s.grid p.1 p.2 with
      | none => s
      | some current =>
        let neighbors := getUnvisitedNeighbors s.grid current
        if neighbors.length = 0 then
          carve rng fuel { s with stack := rest }
        else
          match neighbors.get? (rng s.step % neighbors.length) with
          | none => carve rng fuel { s with step := s.step + 1 }
          | some next =>
            carve rng fuel
              { grid := setVisitedAt (removeWallBetween s.grid current next)
                  next.row next.col
                stack := (next.row, next.col) :: s.stack
                pushes := (next.row, next.col) :: s.pushes
                edges := ((current.row, current.col), (next.row, next.col)) :: s.edges
                step := s.step + 1 }

/-- Fuel that always suffices for the carving loop (the loop measure of the
initial state is below it, see `carve_terminates`). -/
def initialFuel (rows cols : Nat) : Nat :=
  2 * (rows * cols) + 1

/-- The state just before the loop: cell `(0,0)` marked visited and pushed. -/
def initState (rows cols : Nat) : GenState :=
  { grid := setVisitedAt (createGrid rows cols) 0 0
    stack := [(0, 0)]
    pushes := [(0, 0)]
    edges := []
    step := 0 }

/-- The state after the carving loop of `generateMaze rows cols` ends. -/
def genFinal (rng : Nat → Nat) (rows cols : Nat) : GenState :=
  carve rng (initialFuel rows cols) (initState rows cols)

/-- `generateMaze` of `src/maze.ts`: build the grid, fail if the top-left
cell cannot be addressed, run the carving loop, and return the maze with
`start` at the top-left and `end` at the bottom-right corner. -/
def generateMaze (rng : Nat → Nat) (rows cols : Int) : Except String Maze :=
  match getCell (createGrid rows.toNat cols.toNat) 0 0 with
  | none => Except.error "Invalid grid size"
  | some _ =>
    Except.ok
      { rows := rows.toNat
        cols := cols.toNat
        cells := (genFinal rng rows.toNat cols.toNat).grid
        start := (0, 0)
        endPos := (rows.toNat - 1, cols.toNat - 1) }

/-! ### Basic grid lemmas -/

theorem length_modifyAt (f : α → α) (n : Nat) (l : List α) :
    (modifyAt f n l).length = l.length := by
  induction l generalizing n with
  | nil => cases n <;> rfl
  | cons a as ih =>
    cases n with
    | zero => rfl
    | succ n => simpa [modifyAt] using ih n

theorem get?_modifyAt (f : α → α) (n : Nat) (l : List α) (m : Nat) :
    (modifyAt f n l).get? m = if m = n then (l.get? m).map f else l.get? m := by
  induction l generalizing n m with
  | nil => simp [modifyAt]
  | cons a as ih =>
    cases n with
    | zero =>
      cases m with
      | zero => simp [modifyAt]
      | succ m => simp [modifyAt]
    | succ n =>
      cases m with
      | zero => simp [modifyAt]
      | succ m =>
        simp only [modifyAt, List.get?_cons_succ, ih n m]
        by_cases h : m = n
        · simp [h]
        · simp [h, Nat.succ_ne_succ]

theorem forall_mem_modifyAt {P : α → Prop} (f : α → α) (n : Nat) (l : List α)
    (hl : ∀ a ∈ l, P a) (hf : ∀ a, P a → P (f a)) :
    ∀ a ∈ modifyAt f n l, P a := by
  induction l generalizing n with
  | nil => intro a ha; cases n <;> simp [modifyAt] at ha
  | cons a as ih =>
    cases n with
    | zero =>
      intro x hx
      rcases List.mem_cons.1 hx with rfl | hx
      · exact hf a (hl a (by simp))
      · exact hl x (List.mem_cons_of_mem _ hx)
    | succ n =>
      intro x hx
      rcases List.mem_cons.1 hx with rfl | hx
      · exact hl x (by simp)
      · exact ih n (fun b hb => hl b (List.mem_cons_of_mem _ hb)) x hx

theorem getCell_modifyCell (g : Grid) (r c : Nat) (f : Cell → Cell) (r' c' : Nat) :
    getCell (modifyCell g r c f) r' c' =
      if r' = r ∧ c' = c then (getCell g r' c').map f else getCell g r' c' := by
  unfold getCell modifyCell
  rw [get?_modifyAt]
  by_cases hr : r' = r
  · subst hr
    rw [if_pos rfl]
    cases hg : g.get? r' with
    | none => simp
    | some row =>
      simp only [Option.map_some', Option.some_bind]
      rw [get?_modifyAt]
      by_cases hc : c' = c
      · simp [hc]
      · simp [hc]
  · simp [hr]

theorem getCell_createGrid (rows cols : Nat) (r c : Nat) :
    getCell (createGrid rows cols) r c =
      if r < rows ∧ c < cols then
        some { row := r, col := c
               walls := { top := true, right := true, bottom := true, left := true }
               visited := false }
      else none := by
  unfold getCell createGrid
  rw [List.get?_map]
  by_cases hr : r < rows
  · rw [List.get?_range hr]
    simp only [Option.map_some', Option.some_bind]
    rw [List.get?_map]
    by_cases hc : c < cols
    · rw [List.get?_range hc]
      simp [hr, hc]
    · rw [List.get?_eq_none.2 (by simpa using Nat.le_of_not_lt hc)]
      simp [hc]
  · rw [List.get?_eq_none.2 (by simpa using Nat.le_of_not_lt hr)]
    simp [hr]

/-- Structural well-formedness of a grid: `rows` rows of `cols` cells, and
every cell records its own position. -/
structure GridShape (rows cols : Nat) (g : Grid) : Prop where
  len : g.length = rows
  rowLen : ∀ row ∈ g, row.length = cols
  coords : ∀ r c cell, getCell g r c = some cell → cell.row = r ∧ cell.col = c
  isSomeIff : ∀ r c, (getCell g r c).isSome ↔ (r < rows ∧ c < cols)

theorem gridShape_createGrid (rows cols : Nat) :
    GridShape rows cols (createGrid rows cols) := by
  refine ⟨?_, ?_, ?_, ?_⟩
  · simp [createGrid]
  · intro row hrow
    simp only [createGrid, List.mem_map, List.mem_range] at hrow
    obtain ⟨r, _, rfl⟩ := hrow
    simp
  · intro r c cell hcell
    rw [getCell_createGrid] at hcell
    by_cases h : r < rows ∧ c < cols
    · rw [if_pos h] at hcell
      cases hcell
      exact ⟨rfl, rfl⟩
    · simp [h] at hcell
  · intro r c
    rw [getCell_createGrid]
    by_cases h : r < rows ∧ c < cols <;> simp [h]

theorem gridShape_modifyCell {rows cols : Nat} {g : Grid} (h : GridShape rows cols g)
    (r c : Nat) (f : Cell → Cell)
    (hrow : ∀ cell, (f cell).row = cell.row) (hcol : ∀ cell, (f cell).col = cell.col) :
    GridShape rows cols (modifyCell g r c f) := by
  refine ⟨?_, ?_, ?_, ?_⟩
  · rw [modifyCell, length_modifyAt, h.len]
  · intro row hrow'
    exact forall_mem_modifyAt _ _ _ h.rowLen
      (fun a ha => by rw [length_modifyAt]; exact ha) row hrow'
  · intro r' c' cell hcell
    rw [getCell_modifyCell] at hcell
    by_cases hrc : r' = r ∧ c' = c
    · rw [if_pos hrc] at hcell
      cases hg : getCell g r' c' with
      | none => rw [hg] at hcell; simp at hcell
      | some cell0 =>
        rw [hg] at hcell
        simp only [Option.map_some', Option.some.injEq] at hcell
        subst hcell
        obtain ⟨h1, h2⟩ := h.coords r' c' cell0 hg
        rw [hrow, hcol, h1, h2]
        exact ⟨rfl, rfl⟩
    · rw [if_neg hrc] at hcell
      exact h.coords r' c' cell hcell
  · intro r' c'
    rw [getCell_modifyCell]
    by_cases hrc : r' = r ∧ c' = c
    · rw [if_pos hrc, Option.isSome_map']
      exact h.isSomeIff r' c'
    · rw [if_neg hrc]
      exact h.isSomeIff r' c'

theorem gridShape_getCell_lt {rows cols : Nat} {g : Grid} (h : GridShape rows cols g)
    {r c : Nat} {cell : Cell} (hcell : getCell g r c = some cell) :
    r < rows ∧ c < cols := by
  have := (h.isSomeIff r c).1 (by rw [hcell]; rfl)
  exact this

theorem gridShape_exists_cell {rows cols : Nat} {g : Grid} (h : GridShape rows cols g)
    {r c : Nat} (hr : r < rows) (hc : c < cols) :
    ∃ cell, getCell g r c = some cell ∧ cell.row = r ∧ cell.col = c := by
  have hs := (h.isSomeIff r c).2 ⟨hr, hc⟩
  cases hg : getCell g r c with
  | none => rw [hg] at hs; simp at hs
  | some cell =>
    obtain ⟨h1, h2⟩ := h.coords r c cell hg
    exact ⟨cell, rfl, h1, h2⟩

theorem gridShape_row0_length {rows cols : Nat} {g : Grid} (h : GridShape rows cols g)
    (hr : 0 < rows) : ((g.get? 0).map List.length).getD 0 = cols := by
  cases hg : g.get? 0 with
  | none =>
    exfalso
    rw [List.get?_eq_none, h.len] at hg
    omega
  | some row =>
    have hmem : row ∈ g := List.get?_mem hg
    rw [Option.map_some', Option.getD_some]
    exact h.rowLen row hmem

/-! ### Adjacency, visitedness, carved edges -/

/-- Two positions are grid-adjacent (one step in exactly one axis). -/
def adjacent (p q : Pos) : Prop :=
  (p.1 = q.1 ∧ q.2 = p.2 + 1) ∨ (p.1 = q.1 ∧ p.2 = q.2 + 1) ∨
    (p.2 = q.2 ∧ q.1 = p.1 + 1) ∨ (p.2 = q.2 ∧ p.1 = q.1 + 1)

instance (p q : Pos) : Decidable (adjacent p q) := by
  unfold adjacent; infer_instance

theorem adjacent_symm {p q : Pos} (h : adjacent p q) : adjacent q p := by
  unfold adjacent at h ⊢; omega

theorem adjacent_ne {p q : Pos} (h : adjacent p q) : p ≠ q := by
  intro h'
  subst h'
  unfold adjacent at h
  omega

/-- Whether the cell at `p` carries `visited = true` (false if out of range). -/
def isVisited (g : Grid) (p : Pos) : Bool :=
  ((getCell g p.1 p.2).map Cell.visited).getD false

theorem isVisited_eq_true_iff {g : Grid} {p : Pos} :
    isVisited g p = true ↔ ∃ cell, getCell g p.1 p.2 = some cell ∧ cell.visited = true := by
  unfold isVisited
  cases h : getCell g p.1 p.2 <;> simp

/-- The carved-passage relation induced by the ghost edge list (undirected). -/
def edgeIn (E : List (Pos × Pos)) (p q : Pos) : Prop :=
  (p, q) ∈ E ∨ (q, p) ∈ E

theorem edgeIn_symm {E : List (Pos × Pos)} {p q : Pos} (h : edgeIn E p q) : edgeIn E q p :=
  h.symm

theorem edgeIn_nil {p q : Pos} : ¬ edgeIn [] p q := by
  rintro (h | h) <;> simp at h

theorem edgeIn_cons {e : Pos × Pos} {E : List (Pos × Pos)} {p q : Pos} :
    edgeIn (e :: E) p q ↔ edgeIn E p q ∨ (p, q) = e ∨ (q, p) = e := by
  unfold edgeIn
  simp only [List.mem_cons]
  tauto

theorem edgeIn_mono {E : List (Pos × Pos)} {e : Pos × Pos} {p q : Pos} (h : edgeIn E p q) :
    edgeIn (e :: E) p q := by
  rcases h with h | h
  · exact Or.inl (List.mem_cons_of_mem _ h)
  · exact Or.inr (List.mem_cons_of_mem _ h)

/-! ### Characterization of `getUnvisitedNeighbors` -/

theorem neighborAt_some {g : Grid} {r c : Nat} {y : Cell} (hg : getCell g r c = some y) :
    neighborAt g r c = if y.visited then [] else [y] := by
  unfold neighborAt
  rw [hg]

theorem mem_neighborAt {g : Grid} {r c : Nat} {x : Cell} (h : x ∈ neighborAt g r c) :
    getCell g r c = some x ∧ x.visited = false := by
  cases hg : getCell g r c with
  | none =>
    unfold neighborAt at h
    rw [hg] at h
    simp at h
  | some y =>
    rw [neighborAt_some hg] at h
    by_cases hv : y.visited
    · rw [if_pos hv] at h; simp at h
    · rw [if_neg hv] at h
      rcases List.mem_singleton.1 h with rfl
      exact ⟨rfl, by simpa using hv⟩

theorem neighborAt_eq_nil {g : Grid} {r c : Nat} (h : neighborAt g r c = [])
    {y : Cell} (hy : getCell g r c = some y) : y.visited = true := by
  rw [neighborAt_some hy] at h
  by_cases hv : y.visited
  · exact hv
  · rw [if_neg hv] at h
    simp at h

theorem mem_getUnvisitedNeighbors {rows cols : Nat} {g : Grid}
    (hs : GridShape rows cols g) (hr0 : 0 < rows)
    {cell x : Cell} {r c : Nat} (hcell : getCell g r c = some cell)
    (hx : x ∈ getUnvisitedNeighbors g cell) :
    getCell g x.row x.col = some x ∧ x.visited = false ∧ adjacent (r, c) (x.row, x.col) := by
  obtain ⟨hcr, hcc⟩ := hs.coords r c cell hcell
  have hrc := gridShape_getCell_lt hs hcell
  unfold getUnvisitedNeighbors at hx
  rw [hs.len, gridShape_row0_length hs hr0] at hx
  simp only [List.mem_append] at hx
  have aux : ∀ r' c', x ∈ neighborAt g r' c' →
      getCell g x.row x.col = some x ∧ x.visited = false ∧ x.row = r' ∧ x.col = c' := by
    intro r' c' hmem
    obtain ⟨hget, hvis⟩ := mem_neighborAt hmem
    obtain ⟨h1, h2⟩ := hs.coords r' c' x hget
    exact ⟨by rw [h1, h2]; exact hget, hvis, h1, h2⟩
  rcases hx with ((hx | hx) | hx) | hx
  · by_cases hb : cell.row > 0
    · rw [if_pos hb] at hx
      obtain ⟨hg, hv, h1, h2⟩ := aux _ _ hx
      refine ⟨hg, hv, ?_⟩
      rw [hcr] at hb
      unfold adjacent
      rw [h1, h2, hcr, hcc]
      omega
    · rw [if_neg hb] at hx; simp at hx
  · by_cases hb : cell.row < rows - 1
    · rw [if_pos hb] at hx
      obtain ⟨hg, hv, h1, h2⟩ := aux _ _ hx
      refine ⟨hg, hv, ?_⟩
      unfold adjacent
      rw [h1, h2, hcr, hcc]
      omega
    · rw [if_neg hb] at hx; simp at hx
  · by_cases hb : cell.col > 0
    · rw [if_pos hb] at hx
      obtain ⟨hg, hv, h1, h2⟩ := aux _ _ hx
      refine ⟨hg, hv, ?_⟩
      rw [hcc] at hb
      unfold adjacent
      rw [h1, h2, hcr, hcc]
      omega
    · rw [if_neg hb] at hx; simp at hx
  · by_cases hb : cell.col < cols - 1
    · rw [if_pos hb] at hx
      obtain ⟨hg, hv, h1, h2⟩ := aux _ _ hx
      refine ⟨hg, hv, ?_⟩
      unfold adjacent
      rw [h1, h2, hcr, hcc]
      omega
    · rw [if_neg hb] at hx; simp at hx

theorem getUnvisitedNeighbors_eq_nil {rows cols : Nat} {g : Grid}
    (hs : GridShape rows cols g) (hr0 : 0 < rows)
    {cell : Cell} {r c : Nat} (hcell : getCell g r c = some cell)
    (hemp : getUnvisitedNeighbors g cell = []) :
    ∀ q : Pos, adjacent (r, c) q → q.1 < rows → q.2 < cols → isVisited g q = true := by
  obtain ⟨hcr, hcc⟩ := hs.coords r c cell hcell
  unfold getUnvisitedNeighbors at hemp
  rw [hs.len, gridShape_row0_length hs hr0] at hemp
  rw [List.append_eq_nil, List.append_eq_nil, List.append_eq_nil] at hemp
  obtain ⟨⟨⟨htop, hbot⟩, hleft⟩, hright⟩ := hemp
  intro q hadj hq1 hq2
  obtain ⟨y, hy, _, _⟩ := gridShape_exists_cell hs hq1 hq2
  have hq : (q.1, q.2) = q := rfl
  rw [isVisited_eq_true_iff]
  refine ⟨y, hy, ?_⟩
  rcases hadj with ⟨h1, h2⟩ | ⟨h1, h2⟩ | ⟨h1, h2⟩ | ⟨h1, h2⟩
  · -- q is the right neighbor (r, c+1)
    have hcond : cell.col < cols - 1 := by omega
    rw [if_pos hcond] at hright
    refine neighborAt_eq_nil hright (y := y) ?_
    have : cell.row = q.1 ∧ cell.col + 1 = q.2 := by omega
    rw [this.1, this.2]
    exact hy
  · -- q is the left neighbor (r, c-1)
    have hcond : cell.col > 0 := by omega
    rw [if_pos hcond] at hleft
    refine neighborAt_eq_nil hleft (y := y) ?_
    have : cell.row = q.1 ∧ cell.col - 1 = q.2 := by omega
    rw [this.1, this.2]
    exact hy
  · -- q is the bottom neighbor (r+1, c)
    have hcond : cell.row < rows - 1 := by omega
    rw [if_pos hcond] at hbot
    refine neighborAt_eq_nil hbot (y := y) ?_
    have : cell.row + 1 = q.1 ∧ cell.col = q.2 := by omega
    rw [this.1, this.2]
    exact hy
  · -- q is the top neighbor (r-1, c)
    have hcond : cell.row > 0 := by omega
    rw [if_pos hcond] at htop
    refine neighborAt_eq_nil htop (y := y) ?_
    have : cell.row - 1 = q.1 ∧ cell.col = q.2 := by omega
    rw [this.1, this.2]
    exact hy

/-! ### Pointwise description of one carving step -/

theorem getCell_carveStep (g : Grid) (pp qq : Pos) (fp fq : Cell → Cell)
    (hne : pp ≠ qq) (r' c' : Nat) :
    getCell (setVisitedAt (modifyCell (modifyCell g pp.1 pp.2 fp) qq.1 qq.2 fq) qq.1 qq.2) r' c' =
      if (r', c') = qq then
        (getCell g qq.1 qq.2).map (fun cell => { fq cell with visited := true })
      else if (r', c') = pp then (getCell g pp.1 pp.2).map fp
      else getCell g r' c' := by
  unfold setVisitedAt
  rw [getCell_modifyCell, getCell_modifyCell, getCell_modifyCell]
  by_cases hq : r' = qq.1 ∧ c' = qq.2
  · have hq' : (r', c') = qq := Prod.ext_iff.2 ⟨hq.1, hq.2⟩
    have hnp : ¬(r' = pp.1 ∧ c' = pp.2) := by
      intro h
      exact hne (Prod.ext_iff.2 ⟨by omega, by omega⟩)
    rw [if_pos hq, if_pos hq, if_pos hq', if_neg hnp]
    rw [hq.1, hq.2, Option.map_map]
    rfl
  · have hq' : (r', c') ≠ qq := by
      intro h
      exact hq ⟨by rw [← h], by rw [← h]⟩
    rw [if_neg hq, if_neg hq, if_neg hq']
    by_cases hp : r' = pp.1 ∧ c' = pp.2
    · have hp' : (r', c') = pp := Prod.ext_iff.2 ⟨hp.1, hp.2⟩
      rw [if_pos hp, if_pos hp', hp.1, hp.2]
    · have hp' : (r', c') ≠ pp := by
        intro h
        exact hp ⟨by rw [← h], by rw [← h]⟩
      rw [if_neg hp, if_neg hp']

/-- Walls-update functions used to describe one carving step. -/
def clearRightW (w : Walls) : Walls := { w with right := false }

def clearLeftW (w : Walls) : Walls := { w with left := false }

def clearBottomW (w : Walls) : Walls := { w with bottom := false }

def clearTopW (w : Walls) : Walls := { w with top := false }

/-- Pointwise description of a carved grid: the cell at `q` got walls update
`fq` and was marked visited, the cell at `p` got walls update `fp`, and every
other position is untouched. -/
def gridDesc (g g' : Grid) (p q : Pos) (cur nxt : Cell) (fp fq : Walls → Walls) : Prop :=
  ∀ r' c', getCell g' r' c' =
    if (r', c') = q then some { nxt with walls := fq nxt.walls, visited := true }
    else if (r', c') = p then some { cur with walls := fp cur.walls }
    else getCell g r' c'

theorem carveStep_desc {rows cols : Nat} {g : Grid} (hs : GridShape rows cols g)
    {p q : Pos} {cur nxt : Cell}
    (hcur : getCell g p.1 p.2 = some cur) (hnxt : getCell g q.1 q.2 = some nxt)
    (hadj : adjacent p q) :
    (q = (p.1, p.2 + 1) ∧
      gridDesc g (setVisitedAt (removeWallBetween g cur nxt) nxt.row nxt.col)
        p q cur nxt clearRightW clearLeftW) ∨
    (p = (q.1, q.2 + 1) ∧
      gridDesc g (setVisitedAt (removeWallBetween g cur nxt) nxt.row nxt.col)
        p q cur nxt clearLeftW clearRightW) ∨
    (q = (p.1 + 1, p.2) ∧
      gridDesc g (setVisitedAt (removeWallBetween g cur nxt) nxt.row nxt.col)
        p q cur nxt clearBottomW clearTopW) ∨
    (p = (q.1 + 1, q.2) ∧
      gridDesc g (setVisitedAt (removeWallBetween g cur nxt) nxt.row nxt.col)
        p q cur nxt clearTopW clearBottomW) := by
  obtain ⟨hcr, hcc⟩ := hs.coords p.1 p.2 cur hcur
  obtain ⟨hnr, hnc⟩ := hs.coords q.1 q.2 nxt hnxt
  have hne : p ≠ q := adjacent_ne hadj
  rcases hadj with ⟨h1, h2⟩ | ⟨h1, h2⟩ | ⟨h1, h2⟩ | ⟨h1, h2⟩
  · -- q is the right neighbor of p
    refine Or.inl ⟨Prod.ext_iff.2 ⟨by omega, by omega⟩, ?_⟩
    intro r' c'
    have hdx : (nxt.col : Int) - (cur.col : Int) = 1 := by
      rw [hnc, hcc]; omega
    unfold removeWallBetween
    rw [if_pos hdx, hcr, hcc, hnr, hnc]
    rw [getCell_carveStep g p q _ _ hne r' c']
    by_cases hq : (r', c') = q
    · rw [if_pos hq, if_pos hq, hnxt]
      simp [clearRightW, clearLeftW, clearBottomW, clearTopW, hnr, hnc]
    · by_cases hp : (r', c') = p
      · rw [if_neg hq, if_neg hq, if_pos hp, if_pos hp, hcur]
        simp [clearRightW, clearLeftW, clearBottomW, clearTopW, hcr, hcc]
      · rw [if_neg hq, if_neg hq, if_neg hp, if_neg hp]
  · -- q is the left neighbor of p
    refine Or.inr (Or.inl ⟨Prod.ext_iff.2 ⟨by omega, by omega⟩, ?_⟩)
    intro r' c'
    have hdx1 : ¬((nxt.col : Int) - (cur.col : Int) = 1) := by
      rw [hnc, hcc]; omega
    have hdx2 : (nxt.col : Int) - (cur.col : Int) = -1 := by
      rw [hnc, hcc]; omega
    unfold removeWallBetween
    rw [if_neg hdx1, if_pos hdx2, hcr, hcc, hnr, hnc]
    rw [getCell_carveStep g p q _ _ hne r' c']
    by_cases hq : (r', c') = q
    · rw [if_pos hq, if_pos hq, hnxt]
      simp [clearRightW, clearLeftW, clearBottomW, clearTopW, hnr, hnc]
    · by_cases hp : (r', c') = p
      · rw [if_neg hq, if_neg hq, if_pos hp, if_pos hp, hcur]
        simp [clearRightW, clearLeftW, clearBottomW, clearTopW, hcr, hcc]
      · rw [if_neg hq, if_neg hq, if_neg hp, if_neg hp]
  · -- q is the bottom neighbor of p
    refine Or.inr (Or.inr (Or.inl ⟨Prod.ext_iff.2 ⟨by omega, by omega⟩, ?_⟩))
    intro r' c'
    have hdx1 : ¬((nxt.col : Int) - (cur.col : Int) = 1) := by
      rw [hnc, hcc]; omega
    have hdx2 : ¬((nxt.col : Int) - (cur.col : Int) = -1) := by
      rw [hnc, hcc]; omega
    have hdy : (nxt.row : Int) - (cur.row : Int) = 1 := by
      rw [hnr, hcr]; omega
    unfold removeWallBetween
    rw [if_neg hdx1, if_neg hdx2, if_pos hdy, hcr, hcc, hnr, hnc]
    rw [getCell_carveStep g p q _ _ hne r' c']
    by_cases hq : (r', c') = q
    · rw [if_pos hq, if_pos hq, hnxt]
      simp [clearRightW, clearLeftW, clearBottomW, clearTopW, hnr, hnc]
    · by_cases hp : (r', c') = p
      · rw [if_neg hq, if_neg hq, if_pos hp, if_pos hp, hcur]
        simp [clearRightW, clearLeftW, clearBottomW, clearTopW, hcr, hcc]
      · rw [if_neg hq, if_neg hq, if_neg hp, if_neg hp]
  · -- q is the top neighbor of p
    refine Or.inr (Or.inr (Or.inr ⟨Prod.ext_iff.2 ⟨by omega, by omega⟩, ?_⟩))
    intro r' c'
    have hdx1 : ¬((nxt.col : Int) - (cur.col : Int) = 1) := by
      rw [hnc, hcc]; omega
    have hdx2 : ¬((nxt.col : Int) - (cur.col : Int) = -1) := by
      rw [hnc, hcc]; omega
    have hdy1 : ¬((nxt.row : Int) - (cur.row : Int) = 1) := by
      rw [hnr, hcr]; omega
    have hdy2 : (nxt.row : Int) - (cur.row : Int) = -1 := by
      rw [hnr, hcr]; omega
    unfold removeWallBetween
    rw [if_neg hdx1, if_neg hdx2, if_neg hdy1, if_pos hdy2, hcr, hcc, hnr, hnc]
    rw [getCell_carveStep g p q _ _ hne r' c']
    by_cases hq : (r', c') = q
    · rw [if_pos hq, if_pos hq, hnxt]
      simp [clearRightW, clearLeftW, clearBottomW, clearTopW, hnr, hnc]
    · by_cases hp : (r', c') = p
      · rw [if_neg hq, if_neg hq, if_pos hp, if_pos hp, hcur]
        simp [clearRightW, clearLeftW, clearBottomW, clearTopW, hcr, hcc]
      · rw [if_neg hq, if_neg hq, if_neg hp, if_neg hp]

/-! ### The walls-to-edges correspondence -/

/-- Each wall flag of each cell is down exactly when the corresponding
passage to the neighboring cell has been carved (recorded in `E`).
In particular flags toward the outside of the grid are always up. -/
def WallsEdges (rows cols : Nat) (g : Grid) (E : List (Pos × Pos)) : Prop :=
  ∀ r c cell, getCell g r c = some cell →
    (cell.walls.top = false ↔ 0 < r ∧ edgeIn E (r - 1, c) (r, c)) ∧
    (cell.walls.bottom = false ↔ r + 1 < rows ∧ edgeIn E (r, c) (r + 1, c)) ∧
    (cell.walls.left = false ↔ 0 < c ∧ edgeIn E (r, c - 1) (r, c)) ∧
    (cell.walls.right = false ↔ c + 1 < cols ∧ edgeIn E (r, c) (r, c + 1))

theorem edgeIn_cons_of_ne {E : List (Pos × Pos)} {e : Pos × Pos} {a b : Pos}
    (h : ¬((a, b) = e ∨ (b, a) = e)) : edgeIn (e :: E) a b ↔ edgeIn E a b := by
  unfold edgeIn
  simp only [List.mem_cons]
  tauto

theorem iff_edgeIn_cons {X : Bool} {B : Prop} {E : List (Pos × Pos)} {e : Pos × Pos}
    {a b : Pos} (h : ¬((a, b) = e ∨ (b, a) = e))
    (hold : X = false ↔ B ∧ edgeIn E a b) : X = false ↔ B ∧ edgeIn (e :: E) a b := by
  rw [edgeIn_cons_of_ne h]
  exact hold

theorem carved_iff {B : Prop} {E : List (Pos × Pos)} {e : Pos × Pos} {a b : Pos}
    (hB : B) (hmem : (a, b) = e ∨ (b, a) = e) :
    (True ↔ B ∧ edgeIn (e :: E) a b) := by
  constructor
  · intro _
    refine ⟨hB, ?_⟩
    rcases hmem with h | h
    · exact Or.inl (by rw [h]; exact List.mem_cons_self _ _)
    · exact Or.inr (by rw [h]; exact List.mem_cons_self _ _)
  · intro _
    trivial

theorem pair_notmatch_fst {a b p q : Pos} (h1 : a ≠ p) (h2 : a ≠ q) :
    ¬((a, b) = (p, q) ∨ (b, a) = (p, q)) := by
  rintro (h | h)
  · exact h1 (congrArg Prod.fst h)
  · exact h2 (congrArg Prod.snd h)

theorem pair_notmatch_snd {a b p q : Pos} (h1 : b ≠ q) (h2 : b ≠ p) :
    ¬((a, b) = (p, q) ∨ (b, a) = (p, q)) := by
  rintro (h | h)
  · exact h1 (congrArg Prod.snd h)
  · exact h2 (congrArg Prod.fst h)

theorem wallsEdges_carveStep {rows cols : Nat} {g : Grid} {E : List (Pos × Pos)}
    {p q : Pos} {cur nxt : Cell}
    (hs : GridShape rows cols g) (hwe : WallsEdges rows cols g E)
    (hcur : getCell g p.1 p.2 = some cur) (hnxt : getCell g q.1 q.2 = some nxt)
    (hadj : adjacent p q) :
    WallsEdges rows cols (setVisitedAt (removeWallBetween g cur nxt) nxt.row nxt.col)
      ((p, q) :: E) := by
  have hne := adjacent_ne hadj
  have hplt := gridShape_getCell_lt hs hcur
  have hqlt := gridShape_getCell_lt hs hnxt
  rcases carveStep_desc hs hcur hnxt hadj with ⟨hdir, hd⟩ | ⟨hdir, hd⟩ | ⟨hdir, hd⟩ | ⟨hdir, hd⟩ <;>
    [ (have hq1 : q.1 = p.1 := by rw [hdir]
       have hq2 : q.2 = p.2 + 1 := by rw [hdir]);
      (have hq1 : p.1 = q.1 := by rw [hdir]
       have hq2 : p.2 = q.2 + 1 := by rw [hdir]);
      (have hq1 : q.1 = p.1 + 1 := by rw [hdir]
       have hq2 : q.2 = p.2 := by rw [hdir]);
      (have hq1 : p.1 = q.1 + 1 := by rw [hdir]
       have hq2 : p.2 = q.2 := by rw [hdir])] <;>
  · intro r c cell hcell
    rw [hd r c] at hcell
    by_cases hcq : (r, c) = q
    · rw [if_pos hcq] at hcell
      have hyr : r = q.1 := by rw [← hcq]
      have hyc : c = q.2 := by rw [← hcq]
      subst hyr
      subst hyc
      injection hcell with h
      subst h
      have hold := hwe q.1 q.2 nxt hnxt
      refine ⟨?_, ?_, ?_, ?_⟩ <;>
        simp only [clearRightW, clearLeftW, clearBottomW, clearTopW] <;>
        first
          | exact carved_iff (by omega) (Or.inl (by simp [Prod.ext_iff]; omega))
          | exact carved_iff (by omega) (Or.inr (by simp [Prod.ext_iff]; omega))
          | exact iff_edgeIn_cons (by simp [Prod.ext_iff]; omega) hold.1
          | exact iff_edgeIn_cons (by simp [Prod.ext_iff]; omega) hold.2.1
          | exact iff_edgeIn_cons (by simp [Prod.ext_iff]; omega) hold.2.2.1
          | exact iff_edgeIn_cons (by simp [Prod.ext_iff]; omega) hold.2.2.2
    · rw [if_neg hcq] at hcell
      by_cases hcp : (r, c) = p
      · rw [if_pos hcp] at hcell
        have hyr : r = p.1 := by rw [← hcp]
        have hyc : c = p.2 := by rw [← hcp]
        subst hyr
        subst hyc
        injection hcell with h
        subst h
        have hold := hwe p.1 p.2 cur hcur
        refine ⟨?_, ?_, ?_, ?_⟩ <;>
          simp only [clearRightW, clearLeftW, clearBottomW, clearTopW] <;>
          first
            | exact carved_iff (by omega) (Or.inl (by simp [Prod.ext_iff]; omega))
            | exact carved_iff (by omega) (Or.inr (by simp [Prod.ext_iff]; omega))
            | exact iff_edgeIn_cons (by simp [Prod.ext_iff]; omega) hold.1
            | exact iff_edgeIn_cons (by simp [Prod.ext_iff]; omega) hold.2.1
            | exact iff_edgeIn_cons (by simp [Prod.ext_iff]; omega) hold.2.2.1
            | exact iff_edgeIn_cons (by simp [Prod.ext_iff]; omega) hold.2.2.2
      · rw [if_neg hcp] at hcell
        have hold := hwe r c cell hcell
        have hrcq : ((r, c) : Pos) ≠ q := hcq
        have hrcp : ((r, c) : Pos) ≠ p := hcp
        exact ⟨iff_edgeIn_cons (pair_notmatch_snd hrcq hrcp) hold.1,
          iff_edgeIn_cons (pair_notmatch_fst hrcp hrcq) hold.2.1,
          iff_edgeIn_cons (pair_notmatch_snd hrcq hrcp) hold.2.2.1,
          iff_edgeIn_cons (pair_notmatch_fst hrcp hrcq) hold.2.2.2⟩

theorem gridDesc_isVisited {g g' : Grid} {p q : Pos} {cur nxt : Cell} {fp fq : Walls → Walls}
    (hd : gridDesc g g' p q cur nxt fp fq)
    (hcur : getCell g p.1 p.2 = some cur) :
    ∀ x : Pos, isVisited g' x = true ↔ (isVisited g x = true ∨ x = q) := by
  intro x
  unfold isVisited
  rw [hd x.1 x.2]
  by_cases hq : (x.1, x.2) = q
  · rw [if_pos hq]
    simp only [Option.map_some', Option.getD_some]
    constructor
    · intro _
      right
      rw [← hq]
    · intro _
      trivial
  · rw [if_neg hq]
    have hxq : x ≠ q := fun h => hq (by rw [h])
    by_cases hp : (x.1, x.2) = p
    · rw [if_pos hp]
      have hgx : getCell g x.1 x.2 = some cur := by
        have h1 : x.1 = p.1 := by rw [← hp]
        have h2 : x.2 = p.2 := by rw [← hp]
        rw [h1, h2]
        exact hcur
      rw [hgx]
      simp only [Option.map_some', Option.getD_some]
      constructor
      · intro h
        exact Or.inl h
      · rintro (h | h)
        · exact h
        · exact absurd h hxq
    · rw [if_neg hp]
      constructor
      · intro h
        exact Or.inl h
      · rintro (h | h)
        · exact h
        · exact absurd h hxq

theorem gridShape_setVisitedAt {rows cols : Nat} {g : Grid} (hs : GridShape rows cols g)
    (r c : Nat) : GridShape rows cols (setVisitedAt g r c) :=
  gridShape_modifyCell hs r c _ (fun _ => rfl) (fun _ => rfl)

theorem gridShape_removeWallBetween {rows cols : Nat} {g : Grid} (hs : GridShape rows cols g)
    (cur nxt : Cell) : GridShape rows cols (removeWallBetween g cur nxt) := by
  unfold removeWallBetween
  split_ifs <;>
    first
      | exact hs
      | (refine gridShape_modifyCell (gridShape_modifyCell hs _ _ _ ?_ ?_) _ _ _ ?_ ?_ <;>
          (intro cell; rfl))

theorem isVisited_lt {rows cols : Nat} {g : Grid} (hs : GridShape rows cols g) {p : Pos}
    (h : isVisited g p = true) : p.1 < rows ∧ p.2 < cols := by
  rw [isVisited_eq_true_iff] at h
  obtain ⟨cell, hc, _⟩ := h
  exact gridShape_getCell_lt hs hc

theorem length_le_of_nodup_inrange {rows cols : Nat} {l : List Pos} (hnd : l.Nodup)
    (hin : ∀ p ∈ l, p.1 < rows ∧ p.2 < cols) : l.length ≤ rows * cols := by
  classical
  have hsub : l.toFinset ⊆ Finset.range rows ×ˢ Finset.range cols := by
    intro p hp
    rw [List.mem_toFinset] at hp
    obtain ⟨h1, h2⟩ := hin p hp
    rw [Finset.mem_product, Finset.mem_range, Finset.mem_range]
    exact ⟨h1, h2⟩
  have hcard := Finset.card_le_card hsub
  rw [List.toFinset_card_of_nodup hnd] at hcard
  simpa [Finset.card_product] using hcard

/-- Index of the first occurrence of `x` in `l` (length of `l` if absent). -/
def firstIdx (l : List Pos) (x : Pos) : Nat :=
  match l with
  | [] => 0
  | a :: as => if a = x then 0 else firstIdx as x + 1

theorem firstIdx_cons_eq (l : List Pos) (x : Pos) : firstIdx (x :: l) x = 0 := by
  simp [firstIdx]

theorem firstIdx_cons_ne {a x : Pos} (l : List Pos) (h : a ≠ x) :
    firstIdx (a :: l) x = firstIdx l x + 1 := by
  simp [firstIdx, h]

theorem firstIdx_inj {l : List Pos} (hnd : l.Nodup) :
    ∀ {x y : Pos}, x ∈ l → y ∈ l → firstIdx l x = firstIdx l y → x = y := by
  induction l with
  | nil => intro x y hx _ _; exact absurd hx (List.not_mem_nil x)
  | cons a as ih =>
    intro x y hx hy hidx
    obtain ⟨hna, hnd'⟩ := List.nodup_cons.1 hnd
    by_cases hxa : a = x <;> by_cases hya : a = y
    · rw [← hxa, ← hya]
    · rw [firstIdx_cons_ne as hya, hxa, firstIdx_cons_eq] at hidx
      exact absurd hidx.symm (Nat.succ_ne_zero _)
    · rw [firstIdx_cons_ne as hxa, hya, firstIdx_cons_eq] at hidx
      exact absurd hidx (Nat.succ_ne_zero _)
    · rcases List.mem_cons.1 hx with h | hx'
      · exact absurd h.symm hxa
      · rcases List.mem_cons.1 hy with h | hy'
        · exact absurd h.symm hya
        · rw [firstIdx_cons_ne as hxa, firstIdx_cons_ne as hya] at hidx
          exact ih hnd' hx' hy' (Nat.succ_injective hidx)

/-! ### The loop invariant -/

/-- Invariant of the carving loop.  `pushes` enumerates exactly the visited
cells with no repetition, the carved passages `edges` form a tree over the
visited cells rooted at `(0,0)` (one new vertex per edge, parent pushed
before child, unique parent per child), the wall flags mirror `edges`, and
every visited cell no longer on the stack has no unvisited neighbor. -/
structure LoopInv (rows cols : Nat) (s : GenState) : Prop where
  shape : GridShape rows cols s.grid
  startVis : isVisited s.grid (0, 0) = true
  stackVis : ∀ p ∈ s.stack, isVisited s.grid p = true
  pushesChar : ∀ p : Pos, p ∈ s.pushes ↔ isVisited s.grid p = true
  pushesNodup : s.pushes.Nodup
  edgesAdj : ∀ e ∈ s.edges,
    adjacent e.1 e.2 ∧ isVisited s.grid e.1 = true ∧ isVisited s.grid e.2 = true
  edgesNodup : s.edges.Nodup
  edgesCount : s.edges.length + 1 = s.pushes.length
  edgesOrder : ∀ e ∈ s.edges, firstIdx s.pushes e.2 < firstIdx s.pushes e.1
  parentUniq : ∀ e ∈ s.edges, ∀ e' ∈ s.edges, e.2 = e'.2 → e = e'
  wallsE : WallsEdges rows cols s.grid s.edges
  conn : ∀ p : Pos, isVisited s.grid p = true →
    Relation.ReflTransGen (edgeIn s.edges) (0, 0) p
  closed : ∀ p : Pos, isVisited s.grid p = true → p ∉ s.stack →
    ∀ q : Pos, adjacent p q → q.1 < rows → q.2 < cols → isVisited s.grid q = true

theorem initState_getCell (rows cols : Nat) (r c : Nat) :
    getCell (initState rows cols).grid r c =
      if r = 0 ∧ c = 0 then
        (if r < rows ∧ c < cols then
          some { row := 0, col := 0
                 walls := { top := true, right := true, bottom := true, left := true }
                 visited := true }
         else none)
      else getCell (createGrid rows cols) r c := by
  show getCell (setVisitedAt (createGrid rows cols) 0 0) r c = _
  unfold setVisitedAt
  rw [getCell_modifyCell, getCell_createGrid]
  by_cases h : r = 0 ∧ c = 0
  · rw [if_pos h, if_pos h]
    by_cases h2 : r < rows ∧ c < cols
    · rw [if_pos h2, if_pos h2, Option.map_some']
      rw [h.1, h.2]
    · rw [if_neg h2, if_neg h2, Option.map_none']
  · rw [if_neg h, if_neg h]

theorem inv_init {rows cols : Nat} (hr : 0 < rows) (hc : 0 < cols) :
    LoopInv rows cols (initState rows cols) := by
  have hvis : ∀ p : Pos, isVisited (initState rows cols).grid p = true ↔ p = (0, 0) := by
    intro p
    rw [isVisited_eq_true_iff]
    constructor
    · rintro ⟨cell, hcell, hv⟩
      rw [initState_getCell] at hcell
      by_cases h : p.1 = 0 ∧ p.2 = 0
      · exact Prod.ext_iff.2 h
      · exfalso
        rw [if_neg h, getCell_createGrid] at hcell
        by_cases h2 : p.1 < rows ∧ p.2 < cols
        · rw [if_pos h2] at hcell
          injection hcell with hcell
          rw [← hcell] at hv
          simp at hv
        · rw [if_neg h2] at hcell
          exact Option.noConfusion hcell
    · intro h
      subst h
      refine ⟨{ row := 0, col := 0
                walls := { top := true, right := true, bottom := true, left := true }
                visited := true }, ?_, rfl⟩
      rw [initState_getCell]
      rw [if_pos ⟨rfl, rfl⟩, if_pos ⟨hr, hc⟩]
  have hwalls : ∀ r c cell, getCell (initState rows cols).grid r c = some cell →
      cell.walls = { top := true, right := true, bottom := true, left := true } := by
    intro r c cell hcell
    rw [initState_getCell] at hcell
    by_cases h : r = 0 ∧ c = 0
    · rw [if_pos h] at hcell
      by_cases h2 : r < rows ∧ c < cols
      · rw [if_pos h2] at hcell
        injection hcell with hcell
        rw [← hcell]
      · rw [if_neg h2] at hcell
        exact Option.noConfusion hcell
    · rw [if_neg h, getCell_createGrid] at hcell
      by_cases h2 : r < rows ∧ c < cols
      · rw [if_pos h2] at hcell
        injection hcell with hcell
        rw [← hcell]
      · rw [if_neg h2] at hcell
        exact Option.noConfusion hcell
  refine ⟨?_, ?_, ?_, ?_, ?_, ?_, ?_, ?_, ?_, ?_, ?_, ?_, ?_⟩
  · exact gridShape_setVisitedAt (gridShape_createGrid rows cols) 0 0
  · exact (hvis (0, 0)).2 rfl
  · intro p hp
    rcases List.mem_singleton.1 hp with rfl
    exact (hvis (0, 0)).2 rfl
  · intro p
    rw [hvis p]
    simp [initState]
  · simp [initState]
  · intro e he
    simp [initState] at he
  · simp [initState]
  · simp [initState]
  · intro e he
    simp [initState] at he
  · intro e he
    simp [initState] at he
  · intro r c cell hcell
    have hw := hwalls r c cell hcell
    rw [hw]
    have hnil : (initState rows cols).edges = [] := rfl
    rw [hnil]
    refine ⟨?_, ?_, ?_, ?_⟩ <;>
      exact ⟨fun h => by simp at h, fun h => absurd h.2 edgeIn_nil⟩
  · intro p hp
    rw [hvis p] at hp
    subst hp
    exact Relation.ReflTransGen.refl
  · intro p hp hstk
    exfalso
    rw [hvis p] at hp
    subst hp
    exact hstk (by simp [initState])

/-! ### Invariant preservation -/

theorem loopInv_pop {rows cols : Nat} (hr : 0 < rows)
    {s : GenState} (hinv : LoopInv rows cols s)
    {p : Pos} {rest : List Pos} (hstack : s.stack = p :: rest)
    {cur : Cell} (hcur : getCell s.grid p.1 p.2 = some cur)
    (hemp : getUnvisitedNeighbors s.grid cur = []) :
    LoopInv rows cols { s with stack := rest } := by
  refine ⟨hinv.shape, hinv.startVis, ?_, hinv.pushesChar, hinv.pushesNodup, hinv.edgesAdj,
    hinv.edgesNodup, hinv.edgesCount, hinv.edgesOrder, hinv.parentUniq, hinv.wallsE,
    hinv.conn, ?_⟩
  · intro x hx
    exact hinv.stackVis x (by rw [hstack]; exact List.mem_cons_of_mem _ hx)
  · intro x hxvis hxstk
    by_cases hxp : x = p
    · subst hxp
      exact getUnvisitedNeighbors_eq_nil hinv.shape hr hcur hemp
    · refine hinv.closed x hxvis ?_
      rw [hstack]
      intro hmem
      rcases List.mem_cons.1 hmem with h | h
      · exact hxp h
      · exact hxstk h

theorem loopInv_push {rows cols : Nat} (hr : 0 < rows)
    {s : GenState} (hinv : LoopInv rows cols s)
    {p : Pos} {rest : List Pos} (hstack : s.stack = p :: rest)
    {cur : Cell} (hcur : getCell s.grid p.1 p.2 = some cur)
    {nxt : Cell} (hnxt : nxt ∈ getUnvisitedNeighbors s.grid cur) :
    LoopInv rows cols
      { grid := setVisitedAt (removeWallBetween s.grid cur nxt) nxt.row nxt.col
        stack := (nxt.row, nxt.col) :: s.stack
        pushes := (nxt.row, nxt.col) :: s.pushes
        edges := ((cur.row, cur.col), (nxt.row, nxt.col)) :: s.edges
        step := s.step + 1 } := by
  have hs := hinv.shape
  obtain ⟨hcr, hcc⟩ := hs.coords p.1 p.2 cur hcur
  have hpp : ((cur.row, cur.col) : Pos) = p := Prod.ext_iff.2 ⟨hcr, hcc⟩
  rw [hpp]
  obtain ⟨hgn, hnv, hadj0⟩ := mem_getUnvisitedNeighbors hs hr hcur hnxt
  have hadj' : adjacent p (nxt.row, nxt.col) := hadj0
  have hpvis : isVisited s.grid p = true :=
    hinv.stackVis p (by rw [hstack]; exact List.mem_cons_self _ _)
  have hqvisF : isVisited s.grid (nxt.row, nxt.col) = false := by
    unfold isVisited
    rw [show getCell s.grid nxt.row nxt.col = some nxt from hgn]
    simpa using hnv
  have hne : p ≠ (nxt.row, nxt.col) := adjacent_ne hadj'
  have hdesc : ∃ fp fq, gridDesc s.grid
      (setVisitedAt (removeWallBetween s.grid cur nxt) nxt.row nxt.col)
      p (nxt.row, nxt.col) cur nxt fp fq := by
    rcases carveStep_desc hs hcur hgn hadj' with ⟨_, hd⟩ | ⟨_, hd⟩ | ⟨_, hd⟩ | ⟨_, hd⟩ <;>
      exact ⟨_, _, hd⟩
  obtain ⟨fp, fq, hd⟩ := hdesc
  have hvisIff := gridDesc_isVisited hd hcur
  have hvq : isVisited (setVisitedAt (removeWallBetween s.grid cur nxt) nxt.row nxt.col)
      (nxt.row, nxt.col) = true := (hvisIff _).2 (Or.inr rfl)
  have hvmono : ∀ x : Pos, isVisited s.grid x = true →
      isVisited (setVisitedAt (removeWallBetween s.grid cur nxt) nxt.row nxt.col) x = true :=
    fun x hx => (hvisIff x).2 (Or.inl hx)
  have hqnp : (nxt.row, nxt.col) ∉ s.pushes := by
    intro hmem
    rw [hinv.pushesChar _, hqvisF] at hmem
    exact Bool.noConfusion hmem
  refine ⟨?_, ?_, ?_, ?_, ?_, ?_, ?_, ?_, ?_, ?_, ?_, ?_, ?_⟩
  · exact gridShape_setVisitedAt (gridShape_removeWallBetween hs cur nxt) _ _
  · exact hvmono _ hinv.startVis
  · intro x hx
    rcases List.mem_cons.1 hx with rfl | hx
    · exact hvq
    · exact hvmono x (hinv.stackVis x hx)
  · intro x
    rw [List.mem_cons, hvisIff x, hinv.pushesChar x]
    tauto
  · exact List.nodup_cons.2 ⟨hqnp, hinv.pushesNodup⟩
  · intro e he
    rcases List.mem_cons.1 he with rfl | he
    · exact ⟨hadj', hvmono _ hpvis, hvq⟩
    · obtain ⟨h1, h2, h3⟩ := hinv.edgesAdj e he
      exact ⟨h1, hvmono _ h2, hvmono _ h3⟩
  · refine List.nodup_cons.2 ⟨?_, hinv.edgesNodup⟩
    intro hmem
    have := (hinv.edgesAdj _ hmem).2.2
    rw [hqvisF] at this
    exact Bool.noConfusion this
  · simp only [List.length_cons]
    have := hinv.edgesCount
    omega
  · intro e he
    rcases List.mem_cons.1 he with rfl | he
    · simp only
      rw [firstIdx_cons_eq, firstIdx_cons_ne _ (fun h => hne h.symm)]
      omega
    · obtain ⟨_, h2, h3⟩ := hinv.edgesAdj e he
      have he1 : (nxt.row, nxt.col) ≠ e.1 := by
        intro h
        rw [← h, hqvisF] at h2
        exact Bool.noConfusion h2
      have he2 : (nxt.row, nxt.col) ≠ e.2 := by
        intro h
        rw [← h, hqvisF] at h3
        exact Bool.noConfusion h3
      simp only
      rw [firstIdx_cons_ne _ he1, firstIdx_cons_ne _ he2]
      have := hinv.edgesOrder e he
      omega
  · intro e he e' he'
    rcases List.mem_cons.1 he with rfl | he <;> rcases List.mem_cons.1 he' with rfl | he'
    · intro _
      rfl
    · intro hq
      exfalso
      have := (hinv.edgesAdj e' he').2.2
      rw [← hq] at this
      simp only at this
      rw [hqvisF] at this
      exact Bool.noConfusion this
    · intro hq
      exfalso
      have := (hinv.edgesAdj e he).2.2
      rw [hq] at this
      simp only at this
      rw [hqvisF] at this
      exact Bool.noConfusion this
    · exact hinv.parentUniq e he e' he'
  · exact wallsEdges_carveStep hs hinv.wallsE hcur hgn hadj'
  · intro x hx
    rcases (hvisIff x).1 hx with hx' | hx'
    · exact (hinv.conn x hx').mono (fun a b h => edgeIn_mono h)
    · subst hx'
      have hreach := (hinv.conn p hpvis).mono
        (fun a b (h : edgeIn s.edges a b) =>
          (edgeIn_mono h : edgeIn ((p, (nxt.row, nxt.col)) :: s.edges) a b))
      exact hreach.tail (Or.inl (List.mem_cons_self _ _))
  · intro x hxvis hxstk
    have hxq : x ≠ (nxt.row, nxt.col) := fun h => hxstk (h ▸ List.mem_cons_self _ _)
    have hxold : isVisited s.grid x = true := by
      rcases (hvisIff x).1 hxvis with h | h
      · exact h
      · exact absurd h hxq
    have hxstk' : x ∉ s.stack := fun h => hxstk (List.mem_cons_of_mem _ h)
    intro y hady hy1 hy2
    exact hvmono y (hinv.closed x hxold hxstk' y hady hy1 hy2)

/-! ### Termination of the carving loop -/

/-- Loop measure: each iteration either pops (second summand drops) or
newly visits a cell (first summand drops by two, second grows by one). -/
def stateMeasure (rows cols : Nat) (s : GenState) : Nat :=
  2 * (rows * cols - s.pushes.length) + s.stack.length

theorem carve_stack_nil {rng : Nat → Nat} {fuel : Nat} {s : GenState}
    (h : s.stack = []) : carve rng fuel s = s := by
  cases fuel with
  | zero => rfl
  | succ fuel => simp only [carve, h]

theorem carve_spec {rows cols : Nat} (hr : 0 < rows) (hc : 0 < cols) (rng : Nat → Nat) :
    ∀ fuel s, LoopInv rows cols s → stateMeasure rows cols s ≤ fuel →
      LoopInv rows cols (carve rng fuel s) ∧ (carve rng fuel s).stack = [] ∧
        ∀ extra, carve rng (fuel + extra) s = carve rng fuel s := by
  intro fuel
  induction fuel with
  | zero =>
    intro s hinv hm
    have hstk : s.stack = [] := by
      unfold stateMeasure at hm
      have : s.stack.length = 0 := by omega
      exact List.length_eq_zero.1 this
    refine ⟨hinv, hstk, ?_⟩
    intro extra
    rw [Nat.zero_add, carve_stack_nil hstk]
    rfl
  | succ fuel ih =>
    intro s hinv hm
    cases hstack : s.stack with
    | nil =>
      have h1 : carve rng (fuel + 1) s = s := carve_stack_nil hstack
      refine ⟨by rw [h1]; exact hinv, by rw [h1]; exact hstack, ?_⟩
      intro extra
      rw [carve_stack_nil hstack, carve_stack_nil hstack]
    | cons p rest =>
      have hpvis := hinv.stackVis p (by rw [hstack]; exact List.mem_cons_self _ _)
      obtain ⟨cur, hcur, hcv⟩ := isVisited_eq_true_iff.1 hpvis
      by_cases hlen : (getUnvisitedNeighbors s.grid cur).length = 0
      · -- backtrack: pop the stack
        have hstep : ∀ f, carve rng (f + 1) s = carve rng f { s with stack := rest } := by
          intro f
          simp only [carve, hstack, hcur, hlen, if_true]
        have hemp : getUnvisitedNeighbors s.grid cur = [] := List.length_eq_zero.1 hlen
        have hinv' := loopInv_pop hr hinv hstack hcur hemp
        have hm' : stateMeasure rows cols { s with stack := rest } ≤ fuel := by
          unfold stateMeasure at hm ⊢
          rw [hstack] at hm
          simp only [List.length_cons] at hm
          show 2 * (rows * cols - s.pushes.length) + rest.length ≤ fuel
          omega
        obtain ⟨h1, h2, h3⟩ := ih { s with stack := rest } hinv' hm'
        refine ⟨?_, ?_, ?_⟩
        · rw [hstep fuel]; exact h1
        · rw [hstep fuel]; exact h2
        · intro extra
          rw [show fuel + 1 + extra = (fuel + extra) + 1 from by omega,
            hstep (fuel + extra), h3 extra, hstep fuel]
      · -- carve into a random unvisited neighbor
        have hidx : rng s.step % (getUnvisitedNeighbors s.grid cur).length <
            (getUnvisitedNeighbors s.grid cur).length :=
          Nat.mod_lt _ (Nat.pos_of_ne_zero hlen)
        cases hget : (getUnvisitedNeighbors s.grid cur).get?
            (rng s.step % (getUnvisitedNeighbors s.grid cur).length) with
        | none =>
          exfalso
          rw [List.get?_eq_none] at hget
          omega
        | some nxt =>
          have hnxt : nxt ∈ getUnvisitedNeighbors s.grid cur := List.get?_mem hget
          have hstep : ∀ f, carve rng (f + 1) s = carve rng f
              { grid := setVisitedAt (removeWallBetween s.grid cur nxt) nxt.row nxt.col
                stack := (nxt.row, nxt.col) :: s.stack
                pushes := (nxt.row, nxt.col) :: s.pushes
                edges := ((cur.row, cur.col), (nxt.row, nxt.col)) :: s.edges
                step := s.step + 1 } := by
            intro f
            simp only [carve, hstack, hcur, hlen, hget, if_false]
          have hinv' := loopInv_push hr hinv hstack hcur hnxt
          have hm' : stateMeasure rows cols
              { grid := setVisitedAt (removeWallBetween s.grid cur nxt) nxt.row nxt.col
                stack := (nxt.row, nxt.col) :: s.stack
                pushes := (nxt.row, nxt.col) :: s.pushes
                edges := ((cur.row, cur.col), (nxt.row, nxt.col)) :: s.edges
                step := s.step + 1 } ≤ fuel := by
            have hbound : ((nxt.row, nxt.col) :: s.pushes).length ≤ rows * cols := by
              refine length_le_of_nodup_inrange hinv'.pushesNodup ?_
              intro x hx
              exact isVisited_lt hinv'.shape ((hinv'.pushesChar x).1 hx)
            unfold stateMeasure at hm ⊢
            show 2 * (rows * cols - ((nxt.row, nxt.col) :: s.pushes).length) +
              ((nxt.row, nxt.col) :: s.stack).length ≤ fuel
            simp only [List.length_cons] at hbound ⊢
            omega
          obtain ⟨h1, h2, h3⟩ := ih _ hinv' hm'
          refine ⟨?_, ?_, ?_⟩
          · rw [hstep fuel]; exact h1
          · rw [hstep fuel]; exact h2
          · intro extra
            rw [show fuel + 1 + extra = (fuel + extra) + 1 from by omega,
              hstep (fuel + extra), h3 extra, hstep fuel]

/-! ### The final state of the loop -/

theorem genFinal_spec {rows cols : Nat} (hr : 0 < rows) (hc : 0 < cols) (rng : Nat → Nat) :
    LoopInv rows cols (genFinal rng rows cols) ∧ (genFinal rng rows cols).stack = [] ∧
      ∀ extra, carve rng (initialFuel rows cols + extra) (initState rows cols) =
        genFinal rng rows cols := by
  have hinv0 := inv_init hr hc
  have hm0 : stateMeasure rows cols (initState rows cols) ≤ initialFuel rows cols := by
    have hpos : 1 ≤ rows * cols := Nat.mul_pos hr hc
    show 2 * (rows * cols - (initState rows cols).pushes.length) +
      (initState rows cols).stack.length ≤ 2 * (rows * cols) + 1
    have h1 : (initState rows cols).pushes.length = 1 := rfl
    have h2 : (initState rows cols).stack.length = 1 := rfl
    rw [h1, h2]
    omega
  exact carve_spec hr hc rng (initialFuel rows cols) (initState rows cols) hinv0 hm0

theorem genFinal_allVisited {rows cols : Nat} (hr : 0 < rows) (hc : 0 < cols)
    (rng : Nat → Nat) :
    ∀ p : Pos, p.1 < rows → p.2 < cols → isVisited (genFinal rng rows cols).grid p = true := by
  obtain ⟨hinv, hstk, _⟩ := genFinal_spec hr hc rng
  have hcl : ∀ p : Pos, isVisited (genFinal rng rows cols).grid p = true →
      ∀ q : Pos, adjacent p q → q.1 < rows → q.2 < cols →
        isVisited (genFinal rng rows cols).grid q = true := by
    intro p hp
    exact hinv.closed p hp (by rw [hstk]; exact List.not_mem_nil p)
  suffices h : ∀ n (p : Pos), p.1 + p.2 = n → p.1 < rows → p.2 < cols →
      isVisited (genFinal rng rows cols).grid p = true by
    intro p h1 h2
    exact h (p.1 + p.2) p rfl h1 h2
  intro n
  induction n using Nat.strong_induction_on with
  | _ n ih =>
    intro p hsum h1 h2
    by_cases hz : p = (0, 0)
    · subst hz
      exact hinv.startVis
    · have hpos : 0 < p.1 ∨ 0 < p.2 := by
        by_contra hcon
        push_neg at hcon
        exact hz (Prod.ext_iff.2 ⟨by omega, by omega⟩)
      rcases hpos with hp1 | hp2
      · have hq := ih (p.1 - 1 + p.2) (by omega) (p.1 - 1, p.2) rfl (by omega) h2
        refine hcl (p.1 - 1, p.2) hq p ?_ h1 h2
        unfold adjacent
        omega
      · have hq := ih (p.1 + (p.2 - 1)) (by omega) (p.1, p.2 - 1) rfl h1 (by omega)
        refine hcl (p.1, p.2 - 1) hq p ?_ h1 h2
        unfold adjacent
        omega

theorem genFinal_pushes_char {rows cols : Nat} (hr : 0 < rows) (hc : 0 < cols)
    (rng : Nat → Nat) :
    ∀ p : Pos, p ∈ (genFinal rng rows cols).pushes ↔ (p.1 < rows ∧ p.2 < cols) := by
  obtain ⟨hinv, _, _⟩ := genFinal_spec hr hc rng
  intro p
  rw [hinv.pushesChar p]
  constructor
  · intro h
    exact isVisited_lt hinv.shape h
  · intro h
    exact genFinal_allVisited hr hc rng p h.1 h.2

theorem genFinal_pushes_length {rows cols : Nat} (hr : 0 < rows) (hc : 0 < cols)
    (rng : Nat → Nat) : (genFinal rng rows cols).pushes.length = rows * cols := by
  obtain ⟨hinv, _, _⟩ := genFinal_spec hr hc rng
  classical
  have hfin : (genFinal rng rows cols).pushes.toFinset =
      Finset.range rows ×ˢ Finset.range cols := by
    refine Finset.ext fun p => ?_
    rw [List.mem_toFinset, genFinal_pushes_char hr hc rng p, Finset.mem_product,
      Finset.mem_range, Finset.mem_range]
  have hcard := List.toFinset_card_of_nodup hinv.pushesNodup
  rw [hfin] at hcard
  rw [← hcard]
  simp [Finset.card_product]

theorem genFinal_edges_length {rows cols : Nat} (hr : 0 < rows) (hc : 0 < cols)
    (rng : Nat → Nat) : (genFinal rng rows cols).edges.length + 1 = rows * cols := by
  obtain ⟨hinv, _, _⟩ := genFinal_spec hr hc rng
  rw [hinv.edgesCount, genFinal_pushes_length hr hc rng]

/-! ### Bridging `generateMaze` and the loop state -/

theorem generateMaze_eq_error {rng : Nat → Nat} {rows cols : Int}
    (h : rows ≤ 0 ∨ cols ≤ 0) :
    generateMaze rng rows cols = Except.error "Invalid grid size" := by
  have hcond : ¬(0 < rows.toNat ∧ 0 < cols.toNat) := by omega
  simp only [generateMaze]
  rw [getCell_createGrid, if_neg hcond]

theorem generateMaze_eq_ok {rng : Nat → Nat} {rows cols : Int}
    (hr : 0 < rows) (hc : 0 < cols) :
    generateMaze rng rows cols = Except.ok
      { rows := rows.toNat, cols := cols.toNat
        cells := (genFinal rng rows.toNat cols.toNat).grid
        start := (0, 0), endPos := (rows.toNat - 1, cols.toNat - 1) } := by
  have hcond : 0 < rows.toNat ∧ 0 < cols.toNat := by omega
  simp only [generateMaze]
  rw [getCell_createGrid, if_pos hcond]

theorem generateMaze_ok_inv {rng : Nat → Nat} {rows cols : Int} {m : Maze}
    (hm : generateMaze rng rows cols = Except.ok m) :
    0 < rows ∧ 0 < cols ∧
      m = { rows := rows.toNat, cols := cols.toNat
            cells := (genFinal rng rows.toNat cols.toNat).grid
            start := (0, 0), endPos := (rows.toNat - 1, cols.toNat - 1) } := by
  by_cases h : rows ≤ 0 ∨ cols ≤ 0
  · rw [generateMaze_eq_error h] at hm
    exact Except.noConfusion hm
  · push_neg at h
    rw [generateMaze_eq_ok h.1 h.2] at hm
    injection hm with hm
    exact ⟨h.1, h.2, hm.symm⟩

/-! ### The passage graph of a maze -/

/-- Wall flag accessors on a maze (a missing cell counts as walled). -/
def wallTopB (m : Maze) (p : Pos) : Bool :=
  ((getCell m.cells p.1 p.2).map (fun c => c.walls.top)).getD true

def wallRightB (m : Maze) (p : Pos) : Bool :=
  ((getCell m.cells p.1 p.2).map (fun c => c.walls.right)).getD true

def wallBottomB (m : Maze) (p : Pos) : Bool :=
  ((getCell m.cells p.1 p.2).map (fun c => c.walls.bottom)).getD true

def wallLeftB (m : Maze) (p : Pos) : Bool :=
  ((getCell m.cells p.1 p.2).map (fun c => c.walls.left)).getD true

/-- There is a passage between the adjacent cells `p` and `q`: the shared
wall is absent on both sides ("no wall between two adjacent cells"). -/
def passage (m : Maze) (p q : Pos) : Prop :=
  (p.1 = q.1 ∧ q.2 = p.2 + 1 ∧ wallRightB m p = false ∧ wallLeftB m q = false) ∨
    (p.1 = q.1 ∧ p.2 = q.2 + 1 ∧ wallRightB m q = false ∧ wallLeftB m p = false) ∨
    (p.2 = q.2 ∧ q.1 = p.1 + 1 ∧ wallBottomB m p = false ∧ wallTopB m q = false) ∨
    (p.2 = q.2 ∧ p.1 = q.1 + 1 ∧ wallBottomB m q = false ∧ wallTopB m p = false)

instance (m : Maze) (p q : Pos) : Decidable (passage m p q) := by
  unfold passage
  infer_instance

theorem passage_symm {m : Maze} {p q : Pos} (h : passage m p q) : passage m q p := by
  rcases h with ⟨h1, h2, h3, h4⟩ | ⟨h1, h2, h3, h4⟩ | ⟨h1, h2, h3, h4⟩ | ⟨h1, h2, h3, h4⟩
  · exact Or.inr (Or.inl ⟨h1.symm, h2, h3, h4⟩)
  · exact Or.inl ⟨h1.symm, h2, h3, h4⟩
  · exact Or.inr (Or.inr (Or.inr ⟨h1.symm, h2, h3, h4⟩))
  · exact Or.inr (Or.inr (Or.inl ⟨h1.symm, h2, h3, h4⟩))

theorem passage_irrefl {m : Maze} {p : Pos} : ¬ passage m p p := by
  rintro (⟨_, h, _, _⟩ | ⟨_, h, _, _⟩ | ⟨_, h, _, _⟩ | ⟨_, h, _, _⟩) <;> omega

theorem passage_adjacent {m : Maze} {p q : Pos} (h : passage m p q) : adjacent p q := by
  rcases h with ⟨h1, h2, _, _⟩ | ⟨h1, h2, _, _⟩ | ⟨h1, h2, _, _⟩ | ⟨h1, h2, _, _⟩
  · exact Or.inl ⟨h1, h2⟩
  · exact Or.inr (Or.inl ⟨h1, h2⟩)
  · exact Or.inr (Or.inr (Or.inl ⟨h1, h2⟩))
  · exact Or.inr (Or.inr (Or.inr ⟨h1, h2⟩))

/-- The passage graph: vertices are the grid cells, edges the carved
passages ("no wall between two adjacent cells"). -/
def mazeGraph (m : Maze) : SimpleGraph (Fin m.rows × Fin m.cols) where
  Adj a b := passage m (a.1.val, a.2.val) (b.1.val, b.2.val)
  symm := fun _ _ h => passage_symm h
  loopless := fun _ => passage_irrefl

instance (m : Maze) : DecidableRel (mazeGraph m).Adj := fun a b =>
  (inferInstance : Decidable (passage m (a.1.val, a.2.val) (b.1.val, b.2.val)))

/-- The maze produced by a successful `generateMaze` run, as a function of
the positive grid dimensions. -/
def mkMaze (rng : Nat → Nat) (R C : Nat) : Maze :=
  { rows := R, cols := C, cells := (genFinal rng R C).grid
    start := (0, 0), endPos := (R - 1, C - 1) }

theorem generateMaze_eq_ok_mkMaze {rng : Nat → Nat} {rows cols : Int}
    (hr : 0 < rows) (hc : 0 < cols) :
    generateMaze rng rows cols = Except.ok (mkMaze rng rows.toNat cols.toNat) :=
  generateMaze_eq_ok hr hc

theorem generateMaze_ok_eq_mkMaze {rng : Nat → Nat} {rows cols : Int} {m : Maze}
    (hm : generateMaze rng rows cols = Except.ok m) :
    0 < rows ∧ 0 < cols ∧ m = mkMaze rng rows.toNat cols.toNat :=
  generateMaze_ok_inv hm

theorem wallRightB_eq {m : Maze} {p : Pos} {cell : Cell}
    (h : getCell m.cells p.1 p.2 = some cell) : wallRightB m p = cell.walls.right := by
  unfold wallRightB
  rw [h]
  rfl

theorem wallLeftB_eq {m : Maze} {p : Pos} {cell : Cell}
    (h : getCell m.cells p.1 p.2 = some cell) : wallLeftB m p = cell.walls.left := by
  unfold wallLeftB
  rw [h]
  rfl

theorem wallTopB_eq {m : Maze} {p : Pos} {cell : Cell}
    (h : getCell m.cells p.1 p.2 = some cell) : wallTopB m p = cell.walls.top := by
  unfold wallTopB
  rw [h]
  rfl

theorem wallBottomB_eq {m : Maze} {p : Pos} {cell : Cell}
    (h : getCell m.cells p.1 p.2 = some cell) : wallBottomB m p = cell.walls.bottom := by
  unfold wallBottomB
  rw [h]
  rfl

theorem passage_iff_edgeIn {rows cols : Nat} (hr : 0 < rows) (hc : 0 < cols)
    (rng : Nat → Nat) {p q : Pos} (hadj : adjacent p q)
    (hp1 : p.1 < rows) (hp2 : p.2 < cols) (hq1 : q.1 < rows) (hq2 : q.2 < cols) :
    passage (mkMaze rng rows cols) p q ↔ edgeIn (genFinal rng rows cols).edges p q := by
  obtain ⟨hinv, _, _⟩ := genFinal_spec hr hc rng
  obtain ⟨cp, hcp, _, _⟩ := gridShape_exists_cell hinv.shape hp1 hp2
  obtain ⟨cq, hcq, _, _⟩ := gridShape_exists_cell hinv.shape hq1 hq2
  have hcp' : getCell (mkMaze rng rows cols).cells p.1 p.2 = some cp := hcp
  have hcq' : getCell (mkMaze rng rows cols).cells q.1 q.2 = some cq := hcq
  have hwp := hinv.wallsE p.1 p.2 cp hcp
  have hwq := hinv.wallsE q.1 q.2 cq hcq
  have hpe : ((p.1, p.2) : Pos) = p := rfl
  have hqe : ((q.1, q.2) : Pos) = q := rfl
  rcases hadj with ⟨h1, h2⟩ | ⟨h1, h2⟩ | ⟨h1, h2⟩ | ⟨h1, h2⟩
  · -- q = (p.1, p.2 + 1)
    have e1 : ((p.1, p.2 + 1) : Pos) = q := Prod.ext_iff.2 ⟨h1, h2.symm⟩
    have e2 : ((q.1, q.2 - 1) : Pos) = p := Prod.ext_iff.2 ⟨by omega, by omega⟩
    constructor
    · rintro (⟨_, _, h3, _⟩ | ⟨_, hx, _, _⟩ | ⟨_, hx, _, _⟩ | ⟨_, hx, _, _⟩)
      · rw [wallRightB_eq hcp'] at h3
        have hres := hwp.2.2.2.1 h3
        rw [hpe, e1] at hres
        exact hres.2
      · exact absurd hx (by omega)
      · exact absurd hx (by omega)
      · exact absurd hx (by omega)
    · intro hE
      refine Or.inl ⟨h1, h2, ?_, ?_⟩
      · rw [wallRightB_eq hcp']
        refine hwp.2.2.2.2 ⟨by omega, ?_⟩
        rw [hpe, e1]
        exact hE
      · rw [wallLeftB_eq hcq']
        refine hwq.2.2.1.2 ⟨by omega, ?_⟩
        rw [hqe, e2]
        exact hE
  · -- p = (q.1, q.2 + 1)
    have e1 : ((q.1, q.2 + 1) : Pos) = p := Prod.ext_iff.2 ⟨h1.symm, h2.symm⟩
    have e2 : ((p.1, p.2 - 1) : Pos) = q := Prod.ext_iff.2 ⟨by omega, by omega⟩
    constructor
    · rintro (⟨_, hx, _, _⟩ | ⟨_, _, h3, _⟩ | ⟨_, hx, _, _⟩ | ⟨_, hx, _, _⟩)
      · exact absurd hx (by omega)
      · rw [wallRightB_eq hcq'] at h3
        have hres := hwq.2.2.2.1 h3
        rw [hqe, e1] at hres
        exact edgeIn_symm hres.2
      · exact absurd hx (by omega)
      · exact absurd hx (by omega)
    · intro hE
      refine Or.inr (Or.inl ⟨h1, h2, ?_, ?_⟩)
      · rw [wallRightB_eq hcq']
        refine hwq.2.2.2.2 ⟨by omega, ?_⟩
        rw [hqe, e1]
        exact edgeIn_symm hE
      · rw [wallLeftB_eq hcp']
        refine hwp.2.2.1.2 ⟨by omega, ?_⟩
        rw [hpe, e2]
        exact edgeIn_symm hE
  · -- q = (p.1 + 1, p.2)
    have e1 : ((p.1 + 1, p.2) : Pos) = q := Prod.ext_iff.2 ⟨h2.symm, h1⟩
    have e2 : ((q.1 - 1, q.2) : Pos) = p := Prod.ext_iff.2 ⟨by omega, by omega⟩
    constructor
    · rintro (⟨_, hx, _, _⟩ | ⟨_, hx, _, _⟩ | ⟨_, _, h3, _⟩ | ⟨_, hx, _, _⟩)
      · exact absurd hx (by omega)
      · exact absurd hx (by omega)
      · rw [wallBottomB_eq hcp'] at h3
        have hres := hwp.2.1.1 h3
        rw [hpe, e1] at hres
        exact hres.2
      · exact absurd hx (by omega)
    · intro hE
      refine Or.inr (Or.inr (Or.inl ⟨h1, h2, ?_, ?_⟩))
      · rw [wallBottomB_eq hcp']
        refine hwp.2.1.2 ⟨by omega, ?_⟩
        rw [hpe, e1]
        exact hE
      · rw [wallTopB_eq hcq']
        refine hwq.1.2 ⟨by omega, ?_⟩
        rw [hqe, e2]
        exact hE
  · -- p = (q.1 + 1, q.2)
    have e1 : ((q.1 + 1, q.2) : Pos) = p := Prod.ext_iff.2 ⟨h2.symm, h1.symm⟩
    have e2 : ((p.1 - 1, p.2) : Pos) = q := Prod.ext_iff.2 ⟨by omega, by omega⟩
    constructor
    · rintro (⟨_, hx, _, _⟩ | ⟨_, hx, _, _⟩ | ⟨_, hx, _, _⟩ | ⟨_, _, h3, _⟩)
      · exact absurd hx (by omega)
      · exact absurd hx (by omega)
      · exact absurd hx (by omega)
      · rw [wallBottomB_eq hcq'] at h3
        have hres := hwq.2.1.1 h3
        rw [hqe, e1] at hres
        exact edgeIn_symm hres.2
    · intro hE
      refine Or.inr (Or.inr (Or.inr ⟨h1, h2, ?_, ?_⟩))
      · rw [wallBottomB_eq hcq']
        refine hwq.2.1.2 ⟨by omega, ?_⟩
        rw [hqe, e1]
        exact edgeIn_symm hE
      · rw [wallTopB_eq hcp']
        refine hwp.1.2 ⟨by omega, ?_⟩
        rw [hpe, e2]
        exact edgeIn_symm hE

/-- Total coercion of a position into the vertex type (mod the dimensions;
the identity on in-range positions). -/
def toV (R C : Nat) (hR : 0 < R) (hC : 0 < C) (p : Pos) : Fin R × Fin C :=
  (⟨p.1 % R, Nat.mod_lt _ hR⟩, ⟨p.2 % C, Nat.mod_lt _ hC⟩)

theorem toV_val {R C : Nat} (hR : 0 < R) (hC : 0 < C) {p : Pos}
    (h1 : p.1 < R) (h2 : p.2 < C) :
    (((toV R C hR hC p).1.val, (toV R C hR hC p).2.val) : Pos) = p :=
  Prod.ext_iff.2 ⟨Nat.mod_eq_of_lt h1, Nat.mod_eq_of_lt h2⟩

theorem toV_pair {R C : Nat} (hR : 0 < R) (hC : 0 < C) (a : Fin R × Fin C) :
    toV R C hR hC (a.1.val, a.2.val) = a :=
  Prod.ext_iff.2 ⟨Fin.ext (Nat.mod_eq_of_lt a.1.isLt), Fin.ext (Nat.mod_eq_of_lt a.2.isLt)⟩

theorem toV_inj {R C : Nat} (hR : 0 < R) (hC : 0 < C) {p p' : Pos}
    (h1 : p.1 < R) (h2 : p.2 < C) (h1' : p'.1 < R) (h2' : p'.2 < C)
    (h : toV R C hR hC p = toV R C hR hC p') : p = p' := by
  rw [← toV_val hR hC h1 h2, ← toV_val hR hC h1' h2', h]

theorem mazeGraph_adj {m : Maze} {a b : Fin m.rows × Fin m.cols} :
    (mazeGraph m).Adj a b ↔ passage m (a.1.val, a.2.val) (b.1.val, b.2.val) :=
  Iff.rfl

theorem mkMaze_connected {R C : Nat} (hR : 0 < R) (hC : 0 < C) (rng : Nat → Nat) :
    (mazeGraph (mkMaze rng R C)).Connected := by
  obtain ⟨hinv, _, _⟩ := genFinal_spec hR hC rng
  rw [SimpleGraph.connected_iff]
  refine ⟨?_, ⟨(⟨0, hR⟩, ⟨0, hC⟩)⟩⟩
  have key : ∀ p : Pos,
      Relation.ReflTransGen (edgeIn (genFinal rng R C).edges) (0, 0) p →
      p.1 < R → p.2 < C →
      (mazeGraph (mkMaze rng R C)).Reachable (toV R C hR hC (0, 0)) (toV R C hR hC p) := by
    intro p hreach
    induction hreach with
    | refl => intro _ _; exact SimpleGraph.Reachable.refl _
    | tail hab hbc ih =>
      rename_i b c
      intro hc1 hc2
      have hbinfo : adjacent b c ∧ b.1 < R ∧ b.2 < C := by
        rcases hbc with hm | hm
        · obtain ⟨hadj, hv1, _⟩ := hinv.edgesAdj _ hm
          exact ⟨hadj, (isVisited_lt hinv.shape hv1).1, (isVisited_lt hinv.shape hv1).2⟩
        · obtain ⟨hadj, _, hv2⟩ := hinv.edgesAdj _ hm
          exact ⟨adjacent_symm hadj, (isVisited_lt hinv.shape hv2).1,
            (isVisited_lt hinv.shape hv2).2⟩
      obtain ⟨hadj, hb1, hb2⟩ := hbinfo
      have hpass : passage (mkMaze rng R C) b c :=
        (passage_iff_edgeIn hR hC rng hadj hb1 hb2 hc1 hc2).2 hbc
      have hadjV : (mazeGraph (mkMaze rng R C)).Adj (toV R C hR hC b) (toV R C hR hC c) := by
        rw [mazeGraph_adj, toV_val hR hC hb1 hb2, toV_val hR hC hc1 hc2]
        exact hpass
      exact (ih hb1 hb2).trans hadjV.reachable
  intro a b
  have hva : (mazeGraph (mkMaze rng R C)).Reachable (toV R C hR hC (0, 0)) a := by
    have h := key (a.1.val, a.2.val)
      (hinv.conn (a.1.val, a.2.val)
        (genFinal_allVisited hR hC rng (a.1.val, a.2.val) a.1.isLt a.2.isLt))
      a.1.isLt a.2.isLt
    rwa [toV_pair hR hC a] at h
  have hvb : (mazeGraph (mkMaze rng R C)).Reachable (toV R C hR hC (0, 0)) b := by
    have h := key (b.1.val, b.2.val)
      (hinv.conn (b.1.val, b.2.val)
        (genFinal_allVisited hR hC rng (b.1.val, b.2.val) b.1.isLt b.2.isLt))
      b.1.isLt b.2.isLt
    rwa [toV_pair hR hC b] at h
  exact hva.symm.trans hvb

theorem mkMaze_edges_inrange {R C : Nat} (hR : 0 < R) (hC : 0 < C) (rng : Nat → Nat) :
    ∀ e ∈ (genFinal rng R C).edges,
      e.1.1 < R ∧ e.1.2 < C ∧ e.2.1 < R ∧ e.2.2 < C := by
  obtain ⟨hinv, _, _⟩ := genFinal_spec hR hC rng
  intro e he
  obtain ⟨_, hv1, hv2⟩ := hinv.edgesAdj e he
  obtain ⟨a1, a2⟩ := isVisited_lt hinv.shape hv1
  obtain ⟨b1, b2⟩ := isVisited_lt hinv.shape hv2
  exact ⟨a1, a2, b1, b2⟩

theorem mkMaze_edgeFinset_card {R C : Nat} (hR : 0 < R) (hC : 0 < C) (rng : Nat → Nat) :
    (mazeGraph (mkMaze rng R C)).edgeFinset.card = R * C - 1 := by
  classical
  obtain ⟨hinv, _, _⟩ := genFinal_spec hR hC rng
  have hin := mkMaze_edges_inrange hR hC rng
  have hmem : ∀ x, x ∈ (mazeGraph (mkMaze rng R C)).edgeFinset ↔
      x ∈ (genFinal rng R C).edges.map
        (fun e => s(toV R C hR hC e.1, toV R C hR hC e.2)) := by
    intro x
    refine Sym2.inductionOn x ?_
    intro a b
    rw [SimpleGraph.mem_edgeFinset, SimpleGraph.mem_edgeSet, mazeGraph_adj]
    constructor
    · intro hpass
      have hadjp := passage_adjacent hpass
      have hEab := (passage_iff_edgeIn hR hC rng hadjp a.1.isLt a.2.isLt
        b.1.isLt b.2.isLt).1 hpass
      rcases hEab with hm | hm
      · refine List.mem_map.2 ⟨_, hm, ?_⟩
        rw [toV_pair hR hC a, toV_pair hR hC b]
        rfl
      · refine List.mem_map.2 ⟨_, hm, ?_⟩
        rw [toV_pair hR hC b, toV_pair hR hC a]
        exact Sym2.eq_swap
    · intro hmem
      obtain ⟨e, he, heq⟩ := List.mem_map.1 hmem
      obtain ⟨hb1, hb2, hb3, hb4⟩ := hin e he
      have hadje := (hinv.edgesAdj e he).1
      rw [Sym2.eq_iff] at heq
      rcases heq with ⟨h1, h2⟩ | ⟨h1, h2⟩
      · have hva : ((a.1.val, a.2.val) : Pos) = e.1 := by
          rw [← h1]; exact toV_val hR hC hb1 hb2
        have hvb : ((b.1.val, b.2.val) : Pos) = e.2 := by
          rw [← h2]; exact toV_val hR hC hb3 hb4
        rw [hva, hvb]
        exact (passage_iff_edgeIn hR hC rng hadje hb1 hb2 hb3 hb4).2
          (Or.inl (by rw [show (e.1, e.2) = e from rfl]; exact he))
      · have hva : ((a.1.val, a.2.val) : Pos) = e.2 := by
          rw [← h2]; exact toV_val hR hC hb3 hb4
        have hvb : ((b.1.val, b.2.val) : Pos) = e.1 := by
          rw [← h1]; exact toV_val hR hC hb1 hb2
        rw [hva, hvb]
        exact (passage_iff_edgeIn hR hC rng (adjacent_symm hadje) hb3 hb4 hb1 hb2).2
          (Or.inr (by rw [show (e.1, e.2) = e from rfl]; exact he))
  have hnd : ((genFinal rng R C).edges.map
      (fun e => s(toV R C hR hC e.1, toV R C hR hC e.2))).Nodup := by
    refine List.Nodup.map_on ?_ hinv.edgesNodup
    intro e he e' he' heq
    obtain ⟨hb1, hb2, hb3, hb4⟩ := hin e he
    obtain ⟨hb1', hb2', hb3', hb4'⟩ := hin e' he'
    rw [Sym2.eq_iff] at heq
    rcases heq with ⟨h1, h2⟩ | ⟨h1, h2⟩
    · have he1 : e.1 = e'.1 := toV_inj hR hC hb1 hb2 hb1' hb2' h1
      have he2 : e.2 = e'.2 := toV_inj hR hC hb3 hb4 hb3' hb4' h2
      exact Prod.ext_iff.2 ⟨he1, he2⟩
    · exfalso
      have he1 : e.1 = e'.2 := toV_inj hR hC hb1 hb2 hb3' hb4' h1
      have he2 : e.2 = e'.1 := toV_inj hR hC hb3 hb4 hb1' hb2' h2
      have ho1 := hinv.edgesOrder e he
      have ho2 := hinv.edgesOrder e' he'
      rw [he1, he2] at ho1
      omega
  have hfinset : (mazeGraph (mkMaze rng R C)).edgeFinset =
      ((genFinal rng R C).edges.map
        (fun e => s(toV R C hR hC e.1, toV R C hR hC e.2))).toFinset :=
    Finset.ext fun x => by rw [hmem x, List.mem_toFinset]
  rw [hfinset, List.toFinset_card_of_nodup hnd, List.length_map]
  have := genFinal_edges_length hR hC rng
  omega

theorem mkMaze_acyclic {R C : Nat} (hR : 0 < R) (hC : 0 < C) (rng : Nat → Nat) :
    (mazeGraph (mkMaze rng R C)).IsAcyclic := by
  classical
  obtain ⟨hinv, _, _⟩ := genFinal_spec hR hC rng
  intro v c hcyc
  have hmemP : ∀ a : Fin (mkMaze rng R C).rows × Fin (mkMaze rng R C).cols,
      ((a.1.val, a.2.val) : Pos) ∈ (genFinal rng R C).pushes :=
    fun a => (genFinal_pushes_char hR hC rng _).2 ⟨a.1.isLt, a.2.isLt⟩
  set idx : (Fin (mkMaze rng R C).rows × Fin (mkMaze rng R C).cols) → Nat :=
    fun a => firstIdx (genFinal rng R C).pushes (a.1.val, a.2.val) with hidxdef
  have hidxinj : ∀ a b, idx a = idx b → a = b := by
    intro a b h
    have hpair := firstIdx_inj hinv.pushesNodup (hmemP a) (hmemP b) h
    have h1 : a.1.val = b.1.val := congrArg Prod.fst hpair
    have h2 : a.2.val = b.2.val := congrArg Prod.snd hpair
    exact Prod.ext_iff.2 ⟨Fin.ext h1, Fin.ext h2⟩
  have hparent : ∀ a b, (mazeGraph (mkMaze rng R C)).Adj a b → idx b < idx a →
      ((((a.1.val, a.2.val) : Pos), ((b.1.val, b.2.val) : Pos)) ∈
        (genFinal rng R C).edges) := by
    intro a b hadj hlt
    simp only [hidxdef] at hlt
    have hpass : passage (mkMaze rng R C) (a.1.val, a.2.val) (b.1.val, b.2.val) := hadj
    have hadjp := passage_adjacent hpass
    have hE := (passage_iff_edgeIn hR hC rng hadjp a.1.isLt a.2.isLt
      b.1.isLt b.2.isLt).1 hpass
    rcases hE with hm | hm
    · exact hm
    · exfalso
      have := hinv.edgesOrder _ hm
      simp only at this
      omega
  -- choose the most recently pushed vertex on the cycle
  cases hargsome : c.support.argmin idx with
  | none =>
    exact absurd (List.argmin_eq_none.1 hargsome) (SimpleGraph.Walk.support_ne_nil c)
  | some mv =>
    have hmvmem : mv ∈ c.support := List.argmin_mem hargsome
    have hmin : ∀ a ∈ c.support, idx mv ≤ idx a :=
      fun a ha => List.le_of_mem_argmin ha hargsome
    have hcycr := hcyc.rotate hmvmem
    have hrotmem : ∀ x, x ∈ (c.rotate hmvmem).support.tail → x ∈ c.support :=
      fun x hx =>
        List.mem_of_mem_tail
          ((SimpleGraph.Walk.support_rotate c hmvmem).mem_iff.1 hx)
    cases hW : c.rotate hmvmem with
    | nil =>
      rw [hW] at hcycr
      exact SimpleGraph.Walk.IsCycle.not_of_nil hcycr
    | @cons _ b0 _ h p =>
      rw [hW] at hcycr
      obtain ⟨x, q, h', heq⟩ := SimpleGraph.Walk.exists_cons_eq_concat h p
      -- b0 and x are on the cycle
      have hb0mem : b0 ∈ c.support := by
        refine hrotmem b0 ?_
        rw [hW, SimpleGraph.Walk.support_cons]
        exact p.start_mem_support
      have hsupp_eq : mv :: p.support = q.support ++ [mv] := by
        have h1 := congrArg SimpleGraph.Walk.support heq
        rw [SimpleGraph.Walk.support_cons, SimpleGraph.Walk.support_concat] at h1
        simpa [List.concat_eq_append] using h1
      have hxmv : x ≠ mv := (mazeGraph (mkMaze rng R C)).ne_of_adj h'
      have hxmem : x ∈ c.support := by
        refine hrotmem x ?_
        rw [hW, SimpleGraph.Walk.support_cons]
        show x ∈ p.support
        have hx1 : x ∈ q.support ++ [mv] := by
          rw [List.mem_append]
          exact Or.inl q.end_mem_support
        rw [← hsupp_eq] at hx1
        rcases List.mem_cons.1 hx1 with h1 | h1
        · exact absurd h1 hxmv
        · exact h1
      -- strict index comparisons
      have hmvb0 : mv ≠ b0 := (mazeGraph (mkMaze rng R C)).ne_of_adj h
      have hltb0 : idx mv < idx b0 := by
        rcases Nat.lt_or_ge (idx mv) (idx b0) with hlt | hge
        · exact hlt
        · exfalso
          have hle := hmin b0 hb0mem
          have : idx mv = idx b0 := by omega
          exact hmvb0 (hidxinj mv b0 this)
      have hltx : idx mv < idx x := by
        rcases Nat.lt_or_ge (idx mv) (idx x) with hlt | hge
        · exact hlt
        · exfalso
          have hle := hmin x hxmem
          have : idx mv = idx x := by omega
          exact hxmv (hidxinj mv x this).symm
      -- b0 ≠ x since the first and last edges of the cycle differ
      have hb0x : b0 ≠ x := by
        intro hbx
        have hnodup := hcycr.toIsCircuit.toIsTrail.edges_nodup
        have hlist : s(mv, b0) :: p.edges = q.edges ++ [s(x, mv)] := by
          have h1 := congrArg SimpleGraph.Walk.edges heq
          rw [SimpleGraph.Walk.edges_cons, SimpleGraph.Walk.edges_concat] at h1
          simpa [List.concat_eq_append] using h1
        cases hq : q.edges with
        | nil =>
          rw [hq, List.nil_append] at hlist
          have hlen1 : (s(mv, b0) :: p.edges).length = 1 := by rw [hlist]; rfl
          simp only [List.length_cons] at hlen1
          have hplen := SimpleGraph.Walk.length_edges p
          have hlen3 := hcycr.three_le_length
          have hclen : (SimpleGraph.Walk.cons h p).length = p.length + 1 :=
            SimpleGraph.Walk.length_cons h p
          omega
        | cons e0 qrest =>
          rw [hq, List.cons_append] at hlist
          have h2 : p.edges = qrest ++ [s(x, mv)] := by
            injection hlist
          have hmem : s(mv, b0) ∈ p.edges := by
            rw [h2, hbx, List.mem_append]
            exact Or.inr (by rw [Sym2.eq_swap]; exact List.mem_singleton_self _)
          rw [SimpleGraph.Walk.edges_cons] at hnodup
          exact (List.nodup_cons.1 hnodup).1 hmem
      -- two parent entries for mv
      have hent1 := hparent b0 mv h.symm hltb0
      have hent2 := hparent x mv h' hltx
      have := hinv.parentUniq _ hent1 _ hent2 rfl
      have hfst : ((b0.1.val, b0.2.val) : Pos) = (x.1.val, x.2.val) :=
        congrArg Prod.fst this
      refine hb0x ?_
      have h1 : b0.1.val = x.1.val := congrArg Prod.fst hfst
      have h2 : b0.2.val = x.2.val := congrArg Prod.snd hfst
      exact Prod.ext_iff.2 ⟨Fin.ext h1, Fin.ext h2⟩

/-! ### Renderer dimensions (src/renderer.ts) -/

/-- `RenderOptions` of `src/renderer.ts` (numeric fields as exact integers). -/
structure RenderOptions where
  cellSize : Int
  wallThickness : Int
  wallColor : String
  backgroundColor : String
  startStarColor : String
  endStarColor : String

/-- `DEFAULT_OPTIONS` of `src/renderer.ts`. -/
def DEFAULT_OPTIONS : RenderOptions :=
  { cellSize := 20, wallThickness := 4, wallColor := "#2c3e50"
    backgroundColor := "#ffffff", startStarColor := "#e74c3c", endStarColor := "#27ae60" }

/-- A `Partial<RenderOptions>` value: each field optionally present. -/
structure PartialRenderOptions where
  cellSize : Option Int := none
  wallThickness : Option Int := none
  wallColor : Option String := none
  backgroundColor : Option String := none
  startStarColor : Option String := none
  endStarColor : Option String := none

/-- The object spread `{ ...DEFAULT_OPTIONS, ...options }`. -/
def mergeOptions (defaults : RenderOptions) (o : PartialRenderOptions) : RenderOptions :=
  { cellSize := o.cellSize.getD defaults.cellSize
    wallThickness := o.wallThickness.getD defaults.wallThickness
    wallColor := o.wallColor.getD defaults.wallColor
    backgroundColor := o.backgroundColor.getD defaults.backgroundColor
    startStarColor := o.startStarColor.getD defaults.startStarColor
    endStarColor := o.endStarColor.getD defaults.endStarColor }

/-- `getMazeDimensions` of `src/renderer.ts`: the pixel footprint
`(width, height)` of a rendered maze. -/
def getMazeDimensions (maze : Maze) (options : PartialRenderOptions) : Int × Int :=
  let opts := mergeOptions DEFAULT_OPTIONS options
  ((maze.cols : Int) * opts.cellSize + opts.wallThickness,
    (maze.rows : Int) * opts.cellSize + opts.wallThickness)

/-! ### Concrete instances used by the witnesses -/

/-- A fixed random stream (always zero) for concrete evaluations. -/
def rng0 : Nat → Nat := fun _ => 0

/-- A second, syntactically different random stream with the same values. -/
def rng0' : Nat → Nat := fun n => 0 * n

/-- The maze of a successful run (a dummy for the error case). -/
def mazeOrDefault (rng : Nat → Nat) (rows cols : Int) : Maze :=
  match generateMaze rng rows cols with
  | Except.ok m => m
  | Except.error _ =>
    { rows := 0, cols := 0, cells := [], start := (0, 0), endPos := (0, 0) }

/-- The cell at a position of a maze (a dummy when absent). -/
def cellAtD (m : Maze) (r c : Nat) : Cell :=
  (getCell m.cells r c).getD
    { row := 0, col := 0
      walls := { top := true, right := true, bottom := true, left := true }
      visited := false }

theorem bool_eq_of_false_iff {a b : Bool} (h : (a = false) ↔ (b = false)) : a = b := by
  cases a <;> cases b <;> simp_all

/-! ### Claim theorems -/

/-- C1: for every positive integer dimensions and every random stream, the
maze returned by `generateMaze` is perfect: the passage graph ("no wall
between two adjacent cells" as edges) is connected and acyclic and has
exactly `rows * cols - 1` edges, i.e. it is a spanning tree of the grid, so
there is exactly one simple path between any two cells. -/
theorem generateMaze_perfect (rng : Nat → Nat) (rows cols : Int)
    (hr : 0 < rows) (hc : 0 < cols) (m : Maze)
    (hm : generateMaze rng rows cols = Except.ok m) :
    (mazeGraph m).Connected ∧ (mazeGraph m).IsAcyclic ∧
      (mazeGraph m).edgeFinset.card = m.rows * m.cols - 1 ∧
      m.rows = rows.toNat ∧ m.cols = cols.toNat := by
  obtain ⟨-, -, hmeq⟩ := generateMaze_ok_eq_mkMaze hm
  subst hmeq
  have hR : 0 < rows.toNat := by omega
  have hC : 0 < cols.toNat := by omega
  exact ⟨mkMaze_connected hR hC rng, mkMaze_acyclic hR hC rng,
    mkMaze_edgeFinset_card hR hC rng, rfl, rfl⟩

/-- Witness for C1: the concrete 2 by 2 maze with the all-zero stream. -/
theorem generateMaze_perfect_witness :
    (mazeGraph (mazeOrDefault rng0 2 2)).Connected ∧
      (mazeGraph (mazeOrDefault rng0 2 2)).IsAcyclic ∧
      (mazeGraph (mazeOrDefault rng0 2 2)).edgeFinset.card =
        (mazeOrDefault rng0 2 2).rows * (mazeOrDefault rng0 2 2).cols - 1 := by
  have h := generateMaze_perfect rng0 2 2 (by norm_num) (by norm_num)
    (mazeOrDefault rng0 2 2) (by rfl)
  exact ⟨h.1, h.2.1, h.2.2.1⟩

/-- C2: `generateMaze` signals the `Invalid grid size` error exactly when
`rows ≤ 0` or `cols ≤ 0`; for positive dimensions it returns a maze (no
other failure mode exists). -/
theorem generateMaze_error_iff (rng : Nat → Nat) (rows cols : Int) :
    ((∃ e, generateMaze rng rows cols = Except.error e) ↔ (rows ≤ 0 ∨ cols ≤ 0)) ∧
      ((rows ≤ 0 ∨ cols ≤ 0) →
        generateMaze rng rows cols = Except.error "Invalid grid size") ∧
      (0 < rows → 0 < cols → ∃ m, generateMaze rng rows cols = Except.ok m) := by
  refine ⟨⟨?_, ?_⟩, ?_, ?_⟩
  · rintro ⟨e, he⟩
    by_cases h : rows ≤ 0 ∨ cols ≤ 0
    · exact h
    · push_neg at h
      rw [generateMaze_eq_ok h.1 h.2] at he
      exact Except.noConfusion he
  · intro h
    exact ⟨_, generateMaze_eq_error h⟩
  · intro h
    exact generateMaze_eq_error h
  · intro h1 h2
    exact ⟨_, generateMaze_eq_ok h1 h2⟩

/-- Witness for C2: `generateMaze 0 5` errors, `generateMaze 5 5` succeeds. -/
theorem generateMaze_error_iff_witness :
    generateMaze rng0 0 5 = Except.error "Invalid grid size" ∧
      ∃ m, generateMaze rng0 5 5 = Except.ok m :=
  ⟨(generateMaze_error_iff rng0 0 5).2.1 (Or.inl (by norm_num)),
    (generateMaze_error_iff rng0 5 5).2.2 (by norm_num) (by norm_num)⟩

/-- C3: wall symmetry after generation: horizontally adjacent cells agree on
the shared right/left wall, vertically adjacent cells on bottom/top. -/
theorem generateMaze_wall_symmetry (rng : Nat → Nat) (rows cols : Int) (m : Maze)
    (hm : generateMaze rng rows cols = Except.ok m) :
    (∀ r c A B, getCell m.cells r c = some A → getCell m.cells r (c + 1) = some B →
      A.walls.right = B.walls.left) ∧
    (∀ r c A B, getCell m.cells r c = some A → getCell m.cells (r + 1) c = some B →
      A.walls.bottom = B.walls.top) := by
  obtain ⟨hr, hc, hmeq⟩ := generateMaze_ok_eq_mkMaze hm
  subst hmeq
  have hR : 0 < rows.toNat := by omega
  have hC : 0 < cols.toNat := by omega
  obtain ⟨hinv, -, -⟩ := genFinal_spec hR hC rng
  constructor
  · intro r c A B hA hB
    have hwA := (hinv.wallsE r c A hA).2.2.2
    have hwB := (hinv.wallsE r (c + 1) B hB).2.2.1
    have hBlt := gridShape_getCell_lt hinv.shape hB
    have e1 : c + 1 - 1 = c := by omega
    rw [e1] at hwB
    refine bool_eq_of_false_iff ?_
    rw [hwA, hwB]
    constructor
    · rintro ⟨-, he⟩
      exact ⟨by omega, he⟩
    · rintro ⟨-, he⟩
      exact ⟨by omega, he⟩
  · intro r c A B hA hB
    have hwA := (hinv.wallsE r c A hA).2.1
    have hwB := (hinv.wallsE (r + 1) c B hB).1
    have hBlt := gridShape_getCell_lt hinv.shape hB
    have e1 : r + 1 - 1 = r := by omega
    rw [e1] at hwB
    refine bool_eq_of_false_iff ?_
    rw [hwA, hwB]
    constructor
    · rintro ⟨-, he⟩
      exact ⟨by omega, he⟩
    · rintro ⟨-, he⟩
      exact ⟨by omega, he⟩

/-- Witness for C3: symmetry of two concrete adjacent pairs of a 2 by 2 run. -/
theorem generateMaze_wall_symmetry_witness :
    (cellAtD (mazeOrDefault rng0 2 2) 0 0).walls.right =
      (cellAtD (mazeOrDefault rng0 2 2) 0 1).walls.left ∧
    (cellAtD (mazeOrDefault rng0 2 2) 0 0).walls.bottom =
      (cellAtD (mazeOrDefault rng0 2 2) 1 0).walls.top := by
  have h := generateMaze_wall_symmetry rng0 2 2 (mazeOrDefault rng0 2 2) (by rfl)
  exact ⟨h.1 0 0 (cellAtD (mazeOrDefault rng0 2 2) 0 0) (cellAtD (mazeOrDefault rng0 2 2) 0 1)
      (by rfl) (by rfl),
    h.2 0 0 (cellAtD (mazeOrDefault rng0 2 2) 0 0) (cellAtD (mazeOrDefault rng0 2 2) 1 0)
      (by rfl) (by rfl)⟩

/-- C4: boundary walls are preserved: cells in column 0 keep their left
wall, in the last column their right wall, in row 0 their top wall and in
the last row their bottom wall. -/
theorem generateMaze_boundary (rng : Nat → Nat) (rows cols : Int) (m : Maze)
    (hm : generateMaze rng rows cols = Except.ok m) :
    ∀ r c cell, getCell m.cells r c = some cell →
      (c = 0 → cell.walls.left = true) ∧
      (c = m.cols - 1 → cell.walls.right = true) ∧
      (r = 0 → cell.walls.top = true) ∧
      (r = m.rows - 1 → cell.walls.bottom = true) := by
  obtain ⟨hr, hc, hmeq⟩ := generateMaze_ok_eq_mkMaze hm
  subst hmeq
  have hR : 0 < rows.toNat := by omega
  have hC : 0 < cols.toNat := by omega
  obtain ⟨hinv, -, -⟩ := genFinal_spec hR hC rng
  intro r c cell hcell
  have hlt := gridShape_getCell_lt hinv.shape hcell
  have hw := hinv.wallsE r c cell hcell
  refine ⟨?_, ?_, ?_, ?_⟩
  · intro h0
    cases hval : cell.walls.left with
    | false =>
      exfalso
      have := (hw.2.2.1).1 hval
      omega
    | true => rfl
  · intro h0
    cases hval : cell.walls.right with
    | false =>
      exfalso
      have := (hw.2.2.2).1 hval
      have hcols : c + 1 < cols.toNat := this.1
      have : (mkMaze rng rows.toNat cols.toNat).cols = cols.toNat := rfl
      omega
    | true => rfl
  · intro h0
    cases hval : cell.walls.top with
    | false =>
      exfalso
      have := hw.1.1 hval
      omega
    | true => rfl
  · intro h0
    cases hval : cell.walls.bottom with
    | false =>
      exfalso
      have := (hw.2.1).1 hval
      have hrows : r + 1 < rows.toNat := this.1
      have : (mkMaze rng rows.toNat cols.toNat).rows = rows.toNat := rfl
      omega
    | true => rfl

/-- Witness for C4: the four boundary flags of a concrete 2 by 2 run. -/
theorem generateMaze_boundary_witness :
    (cellAtD (mazeOrDefault rng0 2 2) 0 0).walls.left = true ∧
      (cellAtD (mazeOrDefault rng0 2 2) 0 1).walls.right = true ∧
      (cellAtD (mazeOrDefault rng0 2 2) 0 0).walls.top = true ∧
      (cellAtD (mazeOrDefault rng0 2 2) 1 0).walls.bottom = true := by
  have h := generateMaze_boundary rng0 2 2 (mazeOrDefault rng0 2 2) (by rfl)
  exact ⟨(h 0 0 (cellAtD (mazeOrDefault rng0 2 2) 0 0) (by rfl)).1 rfl,
    (h 0 1 (cellAtD (mazeOrDefault rng0 2 2) 0 1) (by rfl)).2.1 (by rfl),
    (h 0 0 (cellAtD (mazeOrDefault rng0 2 2) 0 0) (by rfl)).2.2.1 rfl,
    (h 1 0 (cellAtD (mazeOrDefault rng0 2 2) 1 0) (by rfl)).2.2.2 (by rfl)⟩

/-- C7: the carving loop terminates for every positive dimensions and every
random stream (supplying any extra fuel beyond `initialFuel` does not change
the final state, and the stack is empty there), each cell is pushed at most
once (the push trace has no duplicates), and at termination the push trace
covers all `rows * cols` cells and every cell is visited. -/
theorem generateMaze_terminates (rng : Nat → Nat) (rows cols : Nat)
    (hr : 0 < rows) (hc : 0 < cols) :
    (genFinal rng rows cols).stack = [] ∧
      (genFinal rng rows cols).pushes.Nodup ∧
      (∀ p : Pos, p ∈ (genFinal rng rows cols).pushes ↔ (p.1 < rows ∧ p.2 < cols)) ∧
      (genFinal rng rows cols).pushes.length = rows * cols ∧
      (∀ p : Pos, p.1 < rows → p.2 < cols →
        isVisited (genFinal rng rows cols).grid p = true) ∧
      (∀ extra, carve rng (initialFuel rows cols + extra) (initState rows cols) =
        genFinal rng rows cols) := by
  obtain ⟨hinv, hstk, hextra⟩ := genFinal_spec hr hc rng
  exact ⟨hstk, hinv.pushesNodup, genFinal_pushes_char hr hc rng,
    genFinal_pushes_length hr hc rng, genFinal_allVisited hr hc rng, hextra⟩

/-- Witness for C7 at a concrete 2 by 3 run. -/
theorem generateMaze_terminates_witness :
    (genFinal rng0 2 3).stack = [] ∧
      (genFinal rng0 2 3).pushes.Nodup ∧
      (genFinal rng0 2 3).pushes.length = 2 * 3 := by
  have h := generateMaze_terminates rng0 2 3 (by norm_num) (by norm_num)
  exact ⟨h.1, h.2.1, h.2.2.2.1⟩

/-- C8: generation is deterministic in the random stream: two calls that
consume identical random sequences produce identical results (there is no
other source of nondeterminism in the sequential algorithm). -/
theorem generateMaze_deterministic (rng1 rng2 : Nat → Nat) (rows cols : Int)
    (h : ∀ n, rng1 n = rng2 n) :
    generateMaze rng1 rows cols = generateMaze rng2 rows cols := by
  have heq : rng1 = rng2 := funext h
  rw [heq]

/-- Witness for C8: two syntactically different but pointwise equal streams. -/
theorem generateMaze_deterministic_witness :
    generateMaze rng0 3 4 = generateMaze rng0' 3 4 :=
  generateMaze_deterministic rng0 rng0' 3 4 (fun n => by simp [rng0, rng0'])

/-- C9: `getMazeDimensions` returns `width = cols * cellSize + wallThickness`
and `height = rows * cellSize + wallThickness` for every maze and every
supplied cell size and wall thickness. -/
theorem getMazeDimensions_spec (maze : Maze) (cs wt : Int) (o : PartialRenderOptions)
    (h1 : o.cellSize = some cs) (h2 : o.wallThickness = some wt) :
    getMazeDimensions maze o =
      ((maze.cols : Int) * cs + wt, (maze.rows : Int) * cs + wt) := by
  unfold getMazeDimensions mergeOptions
  rw [h1, h2]
  rfl

/-- Witness for C9 at a concrete maze and options. -/
theorem getMazeDimensions_spec_witness :
    getMazeDimensions (mazeOrDefault rng0 2 3) { cellSize := some 16, wallThickness := some 3 } =
      (((mazeOrDefault rng0 2 3).cols : Int) * 16 + 3,
        ((mazeOrDefault rng0 2 3).rows : Int) * 16 + 3) :=
  getMazeDimensions_spec (mazeOrDefault rng0 2 3) 16 3
    { cellSize := some 16, wallThickness := some 3 } rfl rfl

/-- C10: a successful `generateMaze` returns a well-formed, fully marked
grid: exactly `rows` rows of exactly `cols` cells, every cell records its
own coordinates, and every cell's `visited` flag is left `true`. -/
theorem generateMaze_wellFormed (rng : Nat → Nat) (rows cols : Int) (m : Maze)
    (hm : generateMaze rng rows cols = Except.ok m) :
    m.cells.length = m.rows ∧ (∀ row ∈ m.cells, row.length = m.cols) ∧
      (∀ r c cell, getCell m.cells r c = some cell →
        cell.row = r ∧ cell.col = c ∧ cell.visited = true) := by
  obtain ⟨hr, hc, hmeq⟩ := generateMaze_ok_eq_mkMaze hm
  subst hmeq
  have hR : 0 < rows.toNat := by omega
  have hC : 0 < cols.toNat := by omega
  obtain ⟨hinv, -, -⟩ := genFinal_spec hR hC rng
  refine ⟨hinv.shape.len, hinv.shape.rowLen, ?_⟩
  intro r c cell hcell
  obtain ⟨h1, h2⟩ := hinv.shape.coords r c cell hcell
  obtain ⟨hlt1, hlt2⟩ := gridShape_getCell_lt hinv.shape hcell
  have hvis := genFinal_allVisited hR hC rng (r, c) hlt1 hlt2
  rw [isVisited_eq_true_iff] at hvis
  obtain ⟨cell', hcell', hv⟩ := hvis
  have : cell' = cell := by
    rw [show getCell (genFinal rng rows.toNat cols.toNat).grid (r, c).1 (r, c).2 =
      some cell from hcell] at hcell'
    injection hcell' with h
    exact h.symm
  rw [this] at hv
  exact ⟨h1, h2, hv⟩

/-- Witness for C10 at a concrete 2 by 3 run. -/
theorem generateMaze_wellFormed_witness :
    (mazeOrDefault rng0 2 3).cells.length = (mazeOrDefault rng0 2 3).rows ∧
      (cellAtD (mazeOrDefault rng0 2 3) 1 2).row = 1 ∧
      (cellAtD (mazeOrDefault rng0 2 3) 1 2).col = 2 ∧
      (cellAtD (mazeOrDefault rng0 2 3) 1 2).visited = true := by
  have h := generateMaze_wellFormed rng0 2 3 (mazeOrDefault rng0 2 3) (by rfl)
  have h2 := h.2.2 1 2 (cellAtD (mazeOrDefault rng0 2 3) 1 2) (by rfl)
  exact ⟨h.1, h2.1, h2.2.1, h2.2.2⟩

/-! ### Degenerate single-row and single-column mazes -/

theorem genFinal_corridor_row {C : Nat} (hC : 0 < C) (rng : Nat → Nat) {c : Nat}
    (hc1 : c + 1 < C) : edgeIn (genFinal rng 1 C).edges (0, c) (0, c + 1) := by
  obtain ⟨hinv, -, -⟩ := genFinal_spec Nat.one_pos hC rng
  by_contra hmiss
  have hreach := hinv.conn (0, c + 1)
    (genFinal_allVisited Nat.one_pos hC rng (0, c + 1) Nat.one_pos hc1)
  have hclosed : ∀ p : Pos,
      Relation.ReflTransGen (edgeIn (genFinal rng 1 C).edges) (0, 0) p → p.2 ≤ c := by
    intro p hp
    induction hp with
    | refl => omega
    | tail hab hbc ih =>
      rename_i b q
      have hinfo : adjacent b q ∧ b.1 < 1 ∧ b.2 < C ∧ q.1 < 1 ∧ q.2 < C := by
        rcases hbc with hm | hm
        · obtain ⟨hadj, hv1, hv2⟩ := hinv.edgesAdj _ hm
          obtain ⟨x1, x2⟩ := isVisited_lt hinv.shape hv1
          obtain ⟨y1, y2⟩ := isVisited_lt hinv.shape hv2
          exact ⟨hadj, x1, x2, y1, y2⟩
        · obtain ⟨hadj, hv1, hv2⟩ := hinv.edgesAdj _ hm
          obtain ⟨x1, x2⟩ := isVisited_lt hinv.shape hv1
          obtain ⟨y1, y2⟩ := isVisited_lt hinv.shape hv2
          exact ⟨adjacent_symm hadj, y1, y2, x1, x2⟩
      obtain ⟨hadj, hb1, hb2, hq1, hq2⟩ := hinfo
      rcases hadj with ⟨h1, h2⟩ | ⟨h1, h2⟩ | ⟨h1, h2⟩ | ⟨h1, h2⟩
      · by_cases hbq : b.2 = c
        · exfalso
          apply hmiss
          have hbeq : b = ((0, c) : Pos) := Prod.ext_iff.2 ⟨by omega, hbq⟩
          have hqeq : q = ((0, c + 1) : Pos) := Prod.ext_iff.2 ⟨by omega, by omega⟩
          rw [← hbeq, ← hqeq]
          exact hbc
        · omega
      · omega
      · omega
      · omega
  have := hclosed (0, c + 1) hreach
  omega

theorem genFinal_corridor_col {R : Nat} (hR : 0 < R) (rng : Nat → Nat) {r : Nat}
    (hr1 : r + 1 < R) : edgeIn (genFinal rng R 1).edges (r, 0) (r + 1, 0) := by
  obtain ⟨hinv, -, -⟩ := genFinal_spec hR Nat.one_pos rng
  by_contra hmiss
  have hreach := hinv.conn (r + 1, 0)
    (genFinal_allVisited hR Nat.one_pos rng (r + 1, 0) hr1 Nat.one_pos)
  have hclosed : ∀ p : Pos,
      Relation.ReflTransGen (edgeIn (genFinal rng R 1).edges) (0, 0) p → p.1 ≤ r := by
    intro p hp
    induction hp with
    | refl => omega
    | tail hab hbc ih =>
      rename_i b q
      have hinfo : adjacent b q ∧ b.1 < R ∧ b.2 < 1 ∧ q.1 < R ∧ q.2 < 1 := by
        rcases hbc with hm | hm
        · obtain ⟨hadj, hv1, hv2⟩ := hinv.edgesAdj _ hm
          obtain ⟨x1, x2⟩ := isVisited_lt hinv.shape hv1
          obtain ⟨y1, y2⟩ := isVisited_lt hinv.shape hv2
          exact ⟨hadj, x1, x2, y1, y2⟩
        · obtain ⟨hadj, hv1, hv2⟩ := hinv.edgesAdj _ hm
          obtain ⟨x1, x2⟩ := isVisited_lt hinv.shape hv1
          obtain ⟨y1, y2⟩ := isVisited_lt hinv.shape hv2
          exact ⟨adjacent_symm hadj, y1, y2, x1, x2⟩
      obtain ⟨hadj, hb1, hb2, hq1, hq2⟩ := hinfo
      rcases hadj with ⟨h1, h2⟩ | ⟨h1, h2⟩ | ⟨h1, h2⟩ | ⟨h1, h2⟩
      · omega
      · omega
      · by_cases hbq : b.1 = r
        · exfalso
          apply hmiss
          have hbeq : b = ((r, 0) : Pos) := Prod.ext_iff.2 ⟨hbq, by omega⟩
          have hqeq : q = ((r + 1, 0) : Pos) := Prod.ext_iff.2 ⟨by omega, by omega⟩
          rw [← hbeq, ← hqeq]
          exact hbc
        · omega
      · omega
  have := hclosed (r + 1, 0) hreach
  omega

/-- C5: degenerate sizes produce a single connected corridor: for a 1-row
maze every wall between horizontally consecutive cells is removed (on both
sides) while all top and bottom walls stay intact, and symmetrically for a
1-column maze; both passage graphs are connected. -/
theorem generateMaze_degenerate (rng : Nat → Nat) (n : Int) (hn : 0 < n) :
    (∀ m, generateMaze rng 1 n = Except.ok m →
      (mazeGraph m).Connected ∧
      (∀ c A B, getCell m.cells 0 c = some A → getCell m.cells 0 (c + 1) = some B →
        A.walls.right = false ∧ B.walls.left = false) ∧
      (∀ r c cell, getCell m.cells r c = some cell →
        cell.walls.top = true ∧ cell.walls.bottom = true)) ∧
    (∀ m, generateMaze rng n 1 = Except.ok m →
      (mazeGraph m).Connected ∧
      (∀ r A B, getCell m.cells r 0 = some A → getCell m.cells (r + 1) 0 = some B →
        A.walls.bottom = false ∧ B.walls.top = false) ∧
      (∀ r c cell, getCell m.cells r c = some cell →
        cell.walls.left = true ∧ cell.walls.right = true)) := by
  constructor
  · intro m hm
    obtain ⟨-, -, hmeq⟩ := generateMaze_ok_eq_mkMaze hm
    subst hmeq
    have hC : 0 < n.toNat := by omega
    obtain ⟨hinv, -, -⟩ := genFinal_spec Nat.one_pos hC rng
    refine ⟨mkMaze_connected Nat.one_pos hC rng, ?_, ?_⟩
    · intro c A B hA hB
      have hBlt := gridShape_getCell_lt hinv.shape hB
      have hedge := genFinal_corridor_row hC rng (c := c) hBlt.2
      constructor
      · refine ((hinv.wallsE 0 c A hA).2.2.2).2 ⟨by omega, hedge⟩
      · have hw := ((hinv.wallsE 0 (c + 1) B hB).2.2.1)
        have e1 : c + 1 - 1 = c := by omega
        rw [e1] at hw
        exact hw.2 ⟨by omega, hedge⟩
    · intro r c cell hcell
      have hlt := gridShape_getCell_lt hinv.shape hcell
      have hw := hinv.wallsE r c cell hcell
      constructor
      · cases hval : cell.walls.top with
        | false =>
          exfalso
          have := hw.1.1 hval
          omega
        | true => rfl
      · cases hval : cell.walls.bottom with
        | false =>
          exfalso
          have := hw.2.1.1 hval
          omega
        | true => rfl
  · intro m hm
    obtain ⟨-, -, hmeq⟩ := generateMaze_ok_eq_mkMaze hm
    subst hmeq
    have hR : 0 < n.toNat := by omega
    obtain ⟨hinv, -, -⟩ := genFinal_spec hR Nat.one_pos rng
    refine ⟨mkMaze_connected hR Nat.one_pos rng, ?_, ?_⟩
    · intro r A B hA hB
      have hBlt := gridShape_getCell_lt hinv.shape hB
      have hedge := genFinal_corridor_col hR rng (r := r) hBlt.1
      constructor
      · refine ((hinv.wallsE r 0 A hA).2.1).2 ⟨by omega, hedge⟩
      · have hw := ((hinv.wallsE (r + 1) 0 B hB).1)
        have e1 : r + 1 - 1 = r := by omega
        rw [e1] at hw
        exact hw.2 ⟨by omega, hedge⟩
    · intro r c cell hcell
      have hlt := gridShape_getCell_lt hinv.shape hcell
      have hw := hinv.wallsE r c cell hcell
      constructor
      · cases hval : cell.walls.left with
        | false =>
          exfalso
          have := hw.2.2.1.1 hval
          omega
        | true => rfl
      · cases hval : cell.walls.right with
        | false =>
          exfalso
          have := hw.2.2.2.1 hval
          omega
        | true => rfl

/-- Witness for C5: the 1 by 3 and 3 by 1 runs with the all-zero stream. -/
theorem generateMaze_degenerate_witness :
    ((cellAtD (mazeOrDefault rng0 1 3) 0 0).walls.right = false ∧
      (cellAtD (mazeOrDefault rng0 1 3) 0 1).walls.left = false ∧
      (cellAtD (mazeOrDefault rng0 1 3) 0 1).walls.top = true ∧
      (cellAtD (mazeOrDefault rng0 1 3) 0 1).walls.bottom = true) ∧
    ((cellAtD (mazeOrDefault rng0 3 1) 0 0).walls.bottom = false ∧
      (cellAtD (mazeOrDefault rng0 3 1) 1 0).walls.top = false ∧
      (cellAtD (mazeOrDefault rng0 3 1) 1 0).walls.left = true ∧
      (cellAtD (mazeOrDefault rng0 3 1) 1 0).walls.right = true) := by
  have h := generateMaze_degenerate rng0 3 (by norm_num)
  have hrow := h.1 (mazeOrDefault rng0 1 3) (by rfl)
  have hcol := h.2 (mazeOrDefault rng0 3 1) (by rfl)
  have h1 := hrow.2.1 0 (cellAtD (mazeOrDefault rng0 1 3) 0 0)
    (cellAtD (mazeOrDefault rng0 1 3) 0 1) (by rfl) (by rfl)
  have h2 := hrow.2.2 0 1 (cellAtD (mazeOrDefault rng0 1 3) 0 1) (by rfl)
  have h3 := hcol.2.1 0 (cellAtD (mazeOrDefault rng0 3 1) 0 0)
    (cellAtD (mazeOrDefault rng0 3 1) 1 0) (by rfl) (by rfl)
  have h4 := hcol.2.2 1 0 (cellAtD (mazeOrDefault rng0 3 1) 1 0) (by rfl)
  exact ⟨⟨h1.1, h1.2, h2.1, h2.2⟩, ⟨h3.1, h3.2, h4.1, h4.2⟩⟩

/-! ### The concrete 2 by 2 scenario -/

theorem edgeIn_iff_mem_sym2 {E : List (Pos × Pos)} {a b : Pos} :
    edgeIn E a b ↔ s(a, b) ∈ E.map Sym2.mk := by
  rw [List.mem_map]
  constructor
  · rintro (h | h)
    · exact ⟨(a, b), h, rfl⟩
    · exact ⟨(b, a), h, Sym2.eq_swap⟩
  · rintro ⟨e, he, heq⟩
    rw [Sym2.mk_eq_mk_iff] at heq
    rcases heq with h | h
    · left
      rw [← h]
      exact he
    · right
      have : e = (b, a) := h
      rw [← this]
      exact he

/-- C6: `generateMaze 2 2` yields exactly 4 cells (2 rows of 2), exactly 3
passage edges, `start = (0,0)`, `end = (1,1)`, and the passage from `(0,0)`
reaches `(1,1)` in at most 2 hops (a 2-hop path always exists). -/
theorem generateMaze_two_by_two (rng : Nat → Nat) (m : Maze)
    (hm : generateMaze rng 2 2 = Except.ok m) :
    m.cells.length = 2 ∧ (∀ row ∈ m.cells, row.length = 2) ∧
      (mazeGraph m).edgeFinset.card = 3 ∧
      m.start = (0, 0) ∧ m.endPos = (1, 1) ∧
      ∃ mid : Pos, passage m (0, 0) mid ∧ passage m mid (1, 1) := by
  obtain ⟨-, -, hmeq⟩ := generateMaze_ok_eq_mkMaze hm
  subst hmeq
  have h2 : (2 : Int).toNat = 2 := rfl
  simp only [h2]
  have hR : (0 : Nat) < 2 := by norm_num
  obtain ⟨hinv, -, -⟩ := genFinal_spec hR hR rng
  refine ⟨hinv.shape.len, hinv.shape.rowLen, ?_, rfl, rfl, ?_⟩
  · exact (mkMaze_edgeFinset_card hR hR rng).trans (by norm_num)
  · -- the 2-hop path
    have hlen3 : (genFinal rng 2 2).edges.length = 3 := by
      have h1 := hinv.edgesCount
      have h2' := genFinal_pushes_length hR hR rng
      omega
    have hSnd : ((genFinal rng 2 2).edges.map Sym2.mk).Nodup := by
      refine List.Nodup.map_on ?_ hinv.edgesNodup
      intro e he e' he' heq
      rw [Sym2.mk_eq_mk_iff] at heq
      rcases heq with h | h
      · exact h
      · exfalso
        have h1 : e.1 = e'.2 := by rw [h]; rfl
        have h2' : e.2 = e'.1 := by rw [h]; rfl
        have o1 := hinv.edgesOrder e he
        have o2 := hinv.edgesOrder e' he'
        rw [h1, h2'] at o1
        omega
    have hsub : ∀ e ∈ (genFinal rng 2 2).edges, Sym2.mk e ∈
        ({s(((0, 0) : Pos), ((0, 1) : Pos)), s(((0, 0) : Pos), ((1, 0) : Pos)),
          s(((0, 1) : Pos), ((1, 1) : Pos)), s(((1, 0) : Pos), ((1, 1) : Pos))} :
          Finset (Sym2 Pos)) := by
      intro e he
      obtain ⟨hadj, hv1, hv2⟩ := hinv.edgesAdj e he
      obtain ⟨hb1, hb2⟩ := isVisited_lt hinv.shape hv1
      obtain ⟨hb3, hb4⟩ := isVisited_lt hinv.shape hv2
      rcases e with ⟨⟨r1, c1⟩, ⟨r2, c2⟩⟩
      simp only at hb1 hb2 hb3 hb4
      unfold adjacent at hadj
      simp only at hadj
      interval_cases r1 <;> interval_cases c1 <;> interval_cases r2 <;>
        interval_cases c2 <;>
        first
          | (exfalso; omega)
          | decide
    by_contra hno
    have n1 : ¬(passage (mkMaze rng 2 2) (0, 0) (0, 1) ∧
        passage (mkMaze rng 2 2) (0, 1) (1, 1)) :=
      fun hcon => hno ⟨(0, 1), hcon⟩
    have n2 : ¬(passage (mkMaze rng 2 2) (0, 0) (1, 0) ∧
        passage (mkMaze rng 2 2) (1, 0) (1, 1)) :=
      fun hcon => hno ⟨(1, 0), hcon⟩
    have hiff : ∀ (a b : Pos), adjacent a b → a.1 < 2 → a.2 < 2 → b.1 < 2 → b.2 < 2 →
        (passage (mkMaze rng 2 2) a b ↔
          s(a, b) ∈ (genFinal rng 2 2).edges.map Sym2.mk) := by
      intro a b hadj ha1 ha2 hb1 hb2
      rw [passage_iff_edgeIn hR hR rng hadj ha1 ha2 hb1 hb2, edgeIn_iff_mem_sym2]
    rw [hiff (0, 0) (0, 1) (by decide) (by decide) (by decide) (by decide) (by decide),
      hiff (0, 1) (1, 1) (by decide) (by decide) (by decide) (by decide) (by decide)] at n1
    rw [hiff (0, 0) (1, 0) (by decide) (by decide) (by decide) (by decide) (by decide),
      hiff (1, 0) (1, 1) (by decide) (by decide) (by decide) (by decide) (by decide)] at n2
    have hm1 := not_and_or.1 n1
    have hm2 := not_and_or.1 n2
    -- two distinct candidate edges are missing, so at most 2 distinct edges remain
    have key : ∀ u v : Sym2 Pos,
        u ∈ ({s(((0, 0) : Pos), ((0, 1) : Pos)), s(((0, 0) : Pos), ((1, 0) : Pos)),
          s(((0, 1) : Pos), ((1, 1) : Pos)), s(((1, 0) : Pos), ((1, 1) : Pos))} :
          Finset (Sym2 Pos)) →
        v ∈ ({s(((0, 0) : Pos), ((0, 1) : Pos)), s(((0, 0) : Pos), ((1, 0) : Pos)),
          s(((0, 1) : Pos), ((1, 1) : Pos)), s(((1, 0) : Pos), ((1, 1) : Pos))} :
          Finset (Sym2 Pos)) →
        u ≠ v →
        u ∉ (genFinal rng 2 2).edges.map Sym2.mk →
        v ∉ (genFinal rng 2 2).edges.map Sym2.mk → False := by
      intro u v hu hv huv hnu hnv
      classical
      have hss : ((genFinal rng 2 2).edges.map Sym2.mk).toFinset ⊆
          (({s(((0, 0) : Pos), ((0, 1) : Pos)), s(((0, 0) : Pos), ((1, 0) : Pos)),
            s(((0, 1) : Pos), ((1, 1) : Pos)), s(((1, 0) : Pos), ((1, 1) : Pos))} :
            Finset (Sym2 Pos)).erase u).erase v := by
        intro x hx
        rw [List.mem_toFinset] at hx
        obtain ⟨e, he, hex⟩ := List.mem_map.1 hx
        rw [Finset.mem_erase, Finset.mem_erase]
        refine ⟨?_, ?_, ?_⟩
        · intro hxv
          exact hnv (hxv ▸ hx)
        · intro hxu
          exact hnu (hxu ▸ hx)
        · rw [← hex]
          exact hsub e he
      have hcard := Finset.card_le_card hss
      rw [List.toFinset_card_of_nodup hSnd, List.length_map, hlen3] at hcard
      have hvmem : v ∈ (({s(((0, 0) : Pos), ((0, 1) : Pos)), s(((0, 0) : Pos), ((1, 0) : Pos)),
          s(((0, 1) : Pos), ((1, 1) : Pos)), s(((1, 0) : Pos), ((1, 1) : Pos))} :
          Finset (Sym2 Pos)).erase u) := Finset.mem_erase.2 ⟨fun h => huv h.symm, hv⟩
      have hc1 : (({s(((0, 0) : Pos), ((0, 1) : Pos)), s(((0, 0) : Pos), ((1, 0) : Pos)),
          s(((0, 1) : Pos), ((1, 1) : Pos)), s(((1, 0) : Pos), ((1, 1) : Pos))} :
          Finset (Sym2 Pos)).erase u).card = 3 := by
        rw [Finset.card_erase_of_mem hu]
        decide
      have hc2 := Finset.card_erase_of_mem hvmem
      rw [hc1] at hc2
      omega
    rcases hm1 with h1 | h1 <;> rcases hm2 with h2 | h2
    · exact key _ _ (by decide) (by decide) (by decide) h1 h2
    · exact key _ _ (by decide) (by decide) (by decide) h1 h2
    · exact key _ _ (by decide) (by decide) (by decide) h1 h2
    · exact key _ _ (by decide) (by decide) (by decide) h1 h2

/-- Witness for C6: the concrete 2 by 2 run with the all-zero stream. -/
theorem generateMaze_two_by_two_witness :
    (mazeOrDefault rng0 2 2).cells.length = 2 ∧
      (mazeGraph (mazeOrDefault rng0 2 2)).edgeFinset.card = 3 ∧
      (mazeOrDefault rng0 2 2).start = (0, 0) ∧
      (mazeOrDefault rng0 2 2).endPos = (1, 1) ∧
      ∃ mid : Pos, passage (mazeOrDefault rng0 2 2) (0, 0) mid ∧
        passage (mazeOrDefault rng0 2 2) mid (1, 1) := by
  have h := generateMaze_two_by_two rng0 (mazeOrDefault rng0 2 2) (by rfl)
  exact ⟨h.1, h.2.2.1, h.2.2.2.1, h.2.2.2.2.1, h.2.2.2.2.2⟩
